import Mathlib

/-!
Verification of the chunk-summarize-merge pipeline of the legal-document
summarizer (`src/services/summarizer.py`, class `LegalSummarizer`).

Strings are modelled as `List Char` (`Str`), which matches Python's view of
`str` as a sequence of characters.  Python string primitives used by the
source (`split(". ")`, `split()`, `strip()`, `lower()`, `in`, slicing,
`join`) are reimplemented faithfully below with ASCII semantics (the
source's regexes and `lower()` are applied to ASCII legal text; Unicode
case folding and Unicode word characters are outside the model).

External dependencies are injected, exactly as the spec describes them:
the tokenizer is a pair of token-counting functions (`encode` with and
without special tokens), and the generation pipeline is a function
`Str → GenParams → Option Str` where `none` models a raised exception
from the model runtime.  Wall-clock time (`processing_time`) and
`generated_at` are abstracted (set to `0`); no claim mentions them.
-/

namespace LawTool

/-- Python strings are modelled as lists of characters. -/
abbrev Str := List Char

/-- Coerce a Lean string literal into the model. -/
def str (s : String) : Str := s.data

/-- Python `str.isspace` characters relevant to `strip()`/`split()`
(ASCII whitespace, as in the source's documents). -/
def isPySpace (c : Char) : Bool :=
  c == ' ' || c == '\t' || c == '\n' || c == '\r' || c == '\x0b' || c == '\x0c'

/-- Word character for the regex `\b` boundary (`\w`, ASCII). -/
def isWordChar (c : Char) : Bool :=
  c.isAlphanum || c == '_'

/-- Lower-casing of a single character (ASCII `str.lower()`). -/
def pyLowerChar (c : Char) : Char :=
  if c = 'A' then 'a' else if c = 'B' then 'b' else if c = 'C' then 'c'
  else if c = 'D' then 'd' else if c = 'E' then 'e' else if c = 'F' then 'f'
  else if c = 'G' then 'g' else if c = 'H' then 'h' else if c = 'I' then 'i'
  else if c = 'J' then 'j' else if c = 'K' then 'k' else if c = 'L' then 'l'
  else if c = 'M' then 'm' else if c = 'N' then 'n' else if c = 'O' then 'o'
  else if c = 'P' then 'p' else if c = 'Q' then 'q' else if c = 'R' then 'r'
  else if c = 'S' then 's' else if c = 'T' then 't' else if c = 'U' then 'u'
  else if c = 'V' then 'v' else if c = 'W' then 'w' else if c = 'X' then 'x'
  else if c = 'Y' then 'y' else if c = 'Z' then 'z' else c

/-- Python `str.lower()` (ASCII). -/
def pyLower (s : Str) : Str := s.map pyLowerChar

/-- Python substring test `needle in hay`. -/
def pyIn (needle : Str) : Str → Bool
  | [] => needle.isEmpty
  | c :: t => needle.isPrefixOf (c :: t) || pyIn needle t

/-- Python `text.split(". ")`: split on every non-overlapping occurrence
of the two-character separator, keeping empty pieces. -/
def splitDotSpace : Str → List Str
  | [] => [[]]
  | '.' :: ' ' :: rest => [] :: splitDotSpace rest
  | c :: rest =>
    match splitDotSpace rest with
    | [] => [[c]]
    | h :: t => (c :: h) :: t

/-- Helper for `pySplitWs`: accumulates the current word (reversed). -/
def pySplitAux : Str → Str → List Str
  | acc, [] => if acc.isEmpty then [] else [acc.reverse]
  | acc, c :: rest =>
    if isPySpace c then
      if acc.isEmpty then pySplitAux [] rest
      else acc.reverse :: pySplitAux [] rest
    else pySplitAux (c :: acc) rest

/-- Python `str.split()` with no separator: split on whitespace runs,
dropping empty words. -/
def pySplitWs (s : Str) : List Str := pySplitAux [] s

/-- Python `str.strip()`: drop leading and trailing whitespace. -/
def pyStrip (s : Str) : Str :=
  ((s.dropWhile isPySpace).reverse.dropWhile isPySpace).reverse

/-- Python `sep.join(pieces)`. -/
def pyJoin (sep : Str) : List Str → Str
  | [] => []
  | [x] => x
  | x :: y :: rest => x ++ sep ++ pyJoin sep (y :: rest)

/-- Python builtin `min(a, b)` on floats (modelled on ℚ): returns `b`
when `b < a`, else `a`. -/
def pyMinQ (a b : ℚ) : ℚ := if b < a then b else a

/-- Python builtin `min(a, b)` on ints. -/
def pyMinI (a b : Int) : Int := if b < a then b else a

/-- Python builtin `max(a, b)` on ints. -/
def pyMaxI (a b : Int) : Int := if b > a then b else a

/-- Generation parameters passed to the HuggingFace pipeline call.  The
source builds them as Python dicts with varying key sets, so keys that a
given call site does not set are `none`. -/
structure GenParams where
  maxLength : Nat
  minLength : Nat
  doSample : Bool
  numBeams : Option Nat
  earlyStopping : Option Bool
  lengthPenalty : Option ℚ
  repetitionPenalty : Option ℚ
  noRepeatNgramSize : Option Nat
deriving Repr, DecidableEq

/-- The tokenizer adapter: the source only ever uses
`len(self.tokenizer.encode(text, add_special_tokens=False))` (in
`chunk_text`) and `len(self.tokenizer.encode(text))` (in
`merge_chunk_summaries`), so only the two token counts are modelled. -/
structure Tokenizer where
  encodeLen : Str → Nat
  encodeLenSpecial : Str → Nat

/-- The summarization pipeline adapter: `none` models a raised exception
from the model runtime, `some t` a successful generation returning `t`
(the `result[0]["summary_text"]` field). -/
abbrev Pipeline := Str → GenParams → Option Str

/-- Python exceptions surfaced by the summarizer. -/
inductive PyErr where
  | runtimeError (msg : Str)
  | exception (msg : Str)
deriving Repr, DecidableEq

/-- The mutable fields of `LegalSummarizer` that the pipeline reads:
`tokenizer` and `summarizer_pipeline` are `None` until `load_model()`
completes; `max_chunk_size` is set to 1024 in `__init__`. -/
structure LegalSummarizer where
  tokenizer : Option Tokenizer
  summarizerPipeline : Option Pipeline
  maxChunkSize : Nat

instance {ε α : Type _} [DecidableEq ε] [DecidableEq α] :
    DecidableEq (Except ε α) := fun x y =>
  match x, y with
  | .ok a, .ok b =>
    if h : a = b then .isTrue (by subst h; rfl)
    else .isFalse (by intro hc; cases hc; exact h rfl)
  | .ok _, .error _ => .isFalse (by intro hc; cases hc)
  | .error _, .ok _ => .isFalse (by intro hc; cases hc)
  | .error a, .error b =>
    if h : a = b then .isTrue (by subst h; rfl)
    else .isFalse (by intro hc; cases hc; exact h rfl)

/-- Message carried by a Python exception value. -/
def PyErr.msg : PyErr → Str
  | .runtimeError m => m
  | .exception m => m

/-- The freshly constructed summarizer (`__init__`): nothing loaded. -/
def LegalSummarizer.init : LegalSummarizer :=
  { tokenizer := none, summarizerPipeline := none, maxChunkSize := 1024 }

/-- State of a summarizer on which `load_model()` has completed with
tokenizer `tk` and pipeline `pl`. -/
def LegalSummarizer.loaded (tk : Tokenizer) (pl : Pipeline) : LegalSummarizer :=
  { tokenizer := some tk, summarizerPipeline := some pl, maxChunkSize := 1024 }

/-- `is_model_loaded`: the source checks only `summarizer_pipeline`. -/
def LegalSummarizer.isModelLoaded (s : LegalSummarizer) : Bool :=
  s.summarizerPipeline.isSome

/-- `SummaryParams` dataclass from `data_models.py`. -/
structure SummaryParams where
  length : Str
  focus : Str
  maxWords : Int
deriving Repr, DecidableEq

/-- `SummaryResult` dataclass from `data_models.py`; `processing_time`
and `generated_at` are abstracted (see module docstring). -/
structure SummaryResult where
  originalFilename : Str
  summaryText : Str
  processingTime : ℚ
  wordCount : Nat
  confidenceScore : ℚ
deriving Repr, DecidableEq

/-- One iteration of the sentence-accumulation loop of `chunk_text`
(lines 93-104): the state is `(chunks, current_chunk, current_tokens)`. -/
def chunkStep (tk : Tokenizer) (maxLength : Nat)
    (st : List Str × Str × Nat) (sentence : Str) : List Str × Str × Nat :=
  let n := tk.encodeLen sentence
  if st.2.2 + n > maxLength ∧ st.2.1 ≠ [] then
    (st.1 ++ [pyStrip st.2.1], sentence ++ str ". ", n)
  else
    (st.1, st.2.1 ++ sentence ++ str ". ", st.2.2 + n)

/-- `LegalSummarizer.chunk_text`: greedy sentence-aligned chunking.
Raises `RuntimeError` when the tokenizer is not loaded; returns `[text]`
when the whole text fits in `max_length` tokens; otherwise accumulates
`". "`-separated sentence fragments greedily. -/
def chunkText (s : LegalSummarizer) (text : Str) (maxLength? : Option Nat) :
    Except PyErr (List Str) :=
  let maxLength := maxLength?.getD s.maxChunkSize
  match s.tokenizer with
  | none => .error (.runtimeError (str "Model not loaded. Call load_model() first."))
  | some tk =>
    if tk.encodeLen text ≤ maxLength then .ok [text]
    else
      let fin := (splitDotSpace text).foldl (chunkStep tk maxLength) ([], [], 0)
      .ok (if pyStrip fin.2.1 ≠ [] then fin.1 ++ [pyStrip fin.2.1] else fin.1)

/-- Keyword lists of `_apply_focus_specific_processing`, in source order. -/
def obligationKeywords : List Str :=
  [str "shall", str "must", str "required", str "obligation", str "duty",
   str "responsible", str "liable", str "covenant", str "undertake",
   str "agree to", str "commit to"]

/-- Party-related keyword list of `_apply_focus_specific_processing`. -/
def partyKeywords : List Str :=
  [str "party", str "parties", str "client", str "contractor", str "vendor",
   str "supplier", str "buyer", str "seller", str "lessor", str "lessee",
   str "licensor", str "licensee", str "plaintiff", str "defendant",
   str "company", str "corporation", str "individual"]

/-- Date-related keyword list of `_apply_focus_specific_processing`. -/
def dateKeywords : List Str :=
  [str "date", str "deadline", str "due", str "expire", str "expires",
   str "term", str "period", str "duration", str "commence", str "terminate",
   str "effective", str "within", str "by", str "before", str "after"]

/-- Does the regex `\b<kw>\b` (with `re.IGNORECASE`) match at the start of
`s`, where `prevW` records whether the character immediately before `s` in
the scanned string is a word character (`false` at string start)?  The
matched text differs from `kw` only in letter case, and `isWordChar` is
case-invariant, so the boundary tests inspect `kw` itself. -/
def matchesKwAt (kw : Str) (prevW : Bool) (s : Str) : Bool :=
  pyLower (s.take kw.length) == kw
  && (prevW != isWordChar (kw.headD ' '))
  && (isWordChar (kw.getLastD ' ') !=
       (match s.drop kw.length with
        | [] => false
        | a :: _ => isWordChar a))

/-- Fuel-indexed scanner for one `re.sub` pass of `_emphasize_keywords`.
The fuel only drives structural recursion; it is always called with fuel
at least the string length, where the fuel case is unreachable. -/
def emphGo (kw : Str) : Nat → Bool → Str → Str
  | 0, _, _ => []
  | _ + 1, _, [] => []
  | fuel + 1, prevW, c :: rest =>
    if kw ≠ [] ∧ matchesKwAt kw prevW (c :: rest) then
      str "**" ++ (c :: rest).take kw.length ++ str "**" ++
        emphGo kw fuel (isWordChar (((c :: rest).take kw.length).getLastD ' '))
          ((c :: rest).drop kw.length)
    else c :: emphGo kw fuel (isWordChar c) rest

/-- One pass of `_emphasize_keywords` for a single keyword:
`re.sub(r'\b' + re.escape(kw) + r'\b', lambda m: f"**{m.group()}**", text,
flags=re.IGNORECASE)`.  The scan walks the input left to right; at a match
it emits `**`, the matched text (original casing), `**`, and resumes after
the match; otherwise it copies one character. -/
def emphOne (kw : Str) (prevW : Bool) (s : Str) : Str :=
  emphGo kw s.length prevW s

/-- `_emphasize_keywords`: sequential `re.sub` passes, one per keyword. -/
def emphasizeKeywords (keywords : List Str) (text : Str) : Str :=
  keywords.foldl (fun t kw => emphOne kw false t) text

/-- `_apply_focus_specific_processing`. -/
def applyFocusSpecificProcessing (text : Str) (focus : Str) : Str :=
  if focus = str "obligations" then emphasizeKeywords obligationKeywords text
  else if focus = str "parties" then emphasizeKeywords partyKeywords text
  else if focus = str "dates" then emphasizeKeywords dateKeywords text
  else text

/-- Lazy search for the closing `**` of the regex `\*\*(.*?)\*\*`: returns
the (shortest, newline-free) group together with the remainder after the
closing delimiter.  `.` does not match a newline, so the search stops at
`'\n'`. -/
def findClose : Str → Option (Str × Str)
  | [] => none
  | c :: rest =>
    if c = '*' && rest.headD ' ' == '*' then some ([], rest.tail)
    else if c = '\n' then none
    else (findClose rest).map (fun p => (c :: p.1, p.2))

theorem findClose_length {s g r : Str} (h : findClose s = some (g, r)) :
    g.length + 2 + r.length = s.length := by
  induction s generalizing g with
  | nil => simp [findClose] at h
  | cons c rest ih =>
    rw [findClose] at h
    split at h
    · rename_i hc
      simp only [Option.some.injEq, Prod.mk.injEq] at h
      obtain ⟨hg, hr⟩ := h
      subst hg; subst hr
      cases rest with
      | nil => simp at hc
      | cons d rest2 => simp [List.length_cons]; omega
    · split at h
      · exact Option.noConfusion h
      · cases hfc : findClose rest with
        | none => rw [hfc] at h; exact Option.noConfusion h
        | some p =>
          obtain ⟨g2, r2⟩ := p
          rw [hfc] at h
          simp only [Option.map_some', Option.some.injEq, Prod.mk.injEq] at h
          obtain ⟨h1, h2⟩ := h
          subst h1; subst h2
          have := ih (g := g2) hfc
          simp only [List.length_cons]
          omega

/-- Fuel-indexed scanner for `re.sub(r'\*\*(.*?)\*\*', r'\1', summary)`.
The fuel only drives structural recursion; it is always called with fuel
at least the string length, where the fuel case is unreachable. -/
def stripGo : Nat → Str → Str
  | 0, _ => []
  | _ + 1, [] => []
  | _ + 1, [c] => [c]
  | fuel + 1, c :: d :: rest =>
    if c = '*' && d = '*' then
      match findClose rest with
      | some (g, r) => g ++ stripGo fuel r
      | none => c :: stripGo fuel (d :: rest)
    else c :: stripGo fuel (d :: rest)

/-- `re.sub(r'\*\*(.*?)\*\*', r'\1', summary)`: scan left to right; at a
`**` with a lazily-found closing `**` on the same line, keep only the
group and continue after the match; otherwise copy one character. -/
def stripEmph (s : Str) : Str := stripGo s.length s

/-- `_create_focus_prompt`: prepend the focus-specific instruction. -/
def createFocusPrompt (text : Str) (focus : Str) : Str :=
  let prompt :=
    if focus = str "obligations" then
      str "Summarize the following legal document, focusing specifically on obligations, duties, responsibilities, and requirements of each party:"
    else if focus = str "parties" then
      str "Summarize the following legal document, focusing specifically on the parties involved, their roles, and relationships:"
    else if focus = str "dates" then
      str "Summarize the following legal document, focusing specifically on important dates, deadlines, time periods, and temporal requirements:"
    else
      str "Summarize the following legal document, highlighting the main points and key information:"
  prompt ++ str "\n\n" ++ text

/-- `_get_summary_length_params`: length presets plus focus adjustments
plus the fixed base parameters. -/
def getSummaryLengthParams (length : Str) (focus : Str) : GenParams :=
  let lp :=
    if length = str "brief" then (100, 30)
    else if length = str "detailed" then (400, 150)
    else (200, 80)
  let fa :=
    if focus = str "obligations" then ((1.2 : ℚ), (1.0 : ℚ), some 2)
    else if focus = str "parties" then ((0.8 : ℚ), (1.2 : ℚ), some 3)
    else if focus = str "dates" then ((0.9 : ℚ), (1.1 : ℚ), some 2)
    else ((1.0 : ℚ), (1.1 : ℚ), (none : Option Nat))
  { maxLength := lp.1, minLength := lp.2, doSample := false,
    numBeams := some 4, earlyStopping := some true,
    lengthPenalty := some fa.1, repetitionPenalty := some fa.2.1,
    noRepeatNgramSize := fa.2.2 }

/-- `_get_default_fallback_params`. -/
def defaultFallbackParams : GenParams :=
  { maxLength := 150, minLength := 50, doSample := false,
    numBeams := some 2, earlyStopping := some true,
    lengthPenalty := some 1.0, repetitionPenalty := some 1.1,
    noRepeatNgramSize := none }

/-- Parameters of the per-sub-chunk pipeline call inside
`merge_chunk_summaries` (`max_length=150, min_length=50,
do_sample=False`). -/
def mergeSubChunkParams : GenParams :=
  { maxLength := 150, minLength := 50, doSample := false,
    numBeams := none, earlyStopping := none,
    lengthPenalty := none, repetitionPenalty := none,
    noRepeatNgramSize := none }

/-- Parameters of the direct merge pipeline call inside
`merge_chunk_summaries` (`max_length=200, min_length=100,
do_sample=False`). -/
def mergeDirectParams : GenParams :=
  { maxLength := 200, minLength := 100, doSample := false,
    numBeams := none, earlyStopping := none,
    lengthPenalty := none, repetitionPenalty := none,
    noRepeatNgramSize := none }

/-- `validate_and_sanitize_params`: unknown length/focus coerce to
defaults, `max_words` is clamped to `[50, 1000]`. -/
def validateAndSanitizeParams (p : SummaryParams) : SummaryParams :=
  { length :=
      if p.length = str "brief" ∨ p.length = str "standard" ∨ p.length = str "detailed"
      then p.length else str "standard",
    focus :=
      if p.focus = str "general" ∨ p.focus = str "obligations" ∨
         p.focus = str "parties" ∨ p.focus = str "dates"
      then p.focus else str "general",
    maxWords := pyMaxI 50 (pyMinI p.maxWords 1000) }

/-- `_post_process_summary`: strip emphasis markers, then prepend a focus
label when the cleaned summary contains the focus trigger words. -/
def postProcessSummary (summary : Str) (focus : Str) : Str :=
  let cleaned := stripEmph summary
  if focus = str "obligations" then
    if pyIn (str "obligation") (pyLower cleaned) || pyIn (str "shall") (pyLower cleaned)
    then str "Key Obligations: " ++ cleaned else cleaned
  else if focus = str "parties" then
    if pyIn (str "party") (pyLower cleaned) || pyIn (str "parties") (pyLower cleaned) ||
       pyIn (str "client") (pyLower cleaned) || pyIn (str "contractor") (pyLower cleaned)
    then str "Parties Involved: " ++ cleaned else cleaned
  else if focus = str "dates" then
    if pyIn (str "date") (pyLower cleaned) || pyIn (str "deadline") (pyLower cleaned) ||
       pyIn (str "due") (pyLower cleaned) || pyIn (str "term") (pyLower cleaned)
    then str "Important Dates: " ++ cleaned else cleaned
  else cleaned

/-- Calling `self.summarizer_pipeline(input, params)`: if the pipeline
attribute is `None` the call raises, which every call site wraps in
`try/except`, so it behaves exactly like a failed generation. -/
def callPipe (s : LegalSummarizer) (input : Str) (params : GenParams) : Option Str :=
  match s.summarizerPipeline with
  | none => none
  | some pl => pl input params

/-- `merge_chunk_summaries`.  The second component counts the pipeline
invocations the call performs (each `self.summarizer_pipeline(...)` call,
successful or failing, counts once); the source performs no other model
calls in this method. -/
def mergeChunkSummaries (s : LegalSummarizer) (summaries : List Str) :
    Except PyErr (Str × Nat) :=
  match summaries with
  | [] => .ok ([], 0)
  | [single] => .ok (single, 0)
  | _ =>
    let combined := pyJoin (str " ") summaries
    match s.tokenizer with
    | none => .error (.exception (str "AttributeError: tokenizer is None"))
    | some tk =>
      if tk.encodeLenSpecial combined > s.maxChunkSize then
        match chunkText s combined (some (s.maxChunkSize / 2)) with
        | .error e => .error e
        | .ok chunks =>
          let results := chunks.map (fun chunk =>
            match callPipe s chunk mergeSubChunkParams with
            | some r => r
            | none => chunk.take 200 ++ str "...")
          .ok (pyJoin (str " ") results, chunks.length)
      else
        match callPipe s combined mergeDirectParams with
        | some r => .ok (r, 1)
        | none => .ok (pyJoin (str " ") summaries, 1)

/-- The per-chunk loop of `summarize` (lines 354-391): each chunk yields
a summary text together with a flag recording whether a fallback tier
(default parameters or extractive truncation) was used for it.
`fallback_used` in the source is the disjunction of the flags, and
`chunk_summaries` is the list of texts. -/
def summarizeChunks (s : LegalSummarizer) (modelParams : GenParams)
    (focus : Str) (chunks : List Str) : List (Str × Bool) :=
  chunks.map (fun chunk =>
    match callPipe s (createFocusPrompt chunk focus) modelParams with
    | some r => (r, false)
    | none =>
      match callPipe s chunk defaultFallbackParams with
      | some r => (r, true)
      | none =>
        (pyJoin (str ". ") ((splitDotSpace chunk).take 3) ++ str ".", true))

/-- `_create_emergency_fallback_summary`: extractive summary from the
leading sentences of the raw text, word-capped, tagged and scored 0.3. -/
def createEmergencyFallbackSummary (text : Str) (params : SummaryParams)
    (originalFilename : Str) : SummaryResult :=
  let sentences := splitDotSpace text
  let numSentences : Nat :=
    if params.length = str "brief" then 2
    else if params.length = str "standard" then 4
    else if params.length = str "detailed" then 6
    else 4
  let fallback0 := pyJoin (str ". ") (sentences.take numSentences)
  let fallback1 :=
    if fallback0.getLastD ' ' = '.' then fallback0 else fallback0 ++ [ '.' ]
  let words := pySplitWs fallback1
  let fallback2 :=
    if (words.length : Int) > params.maxWords
    then pyJoin (str " ") (words.take params.maxWords.toNat) ++ str "..."
    else fallback1
  { originalFilename := originalFilename,
    summaryText := str "[Extractive Summary] " ++ fallback2,
    processingTime := 0,
    wordCount := (pySplitWs fallback2).length,
    confidenceScore := 0.3 }

/-- Final stages of `summarize` (lines 399-423): post-processing, word
count, confidence scoring and word-limit capping, assembled into the
returned `SummaryResult`. -/
def finishSummary (originalFilename : Str) (vp : SummaryParams)
    (chunks : List Str) (outcomes : List (Str × Bool)) (merged : Str) :
    SummaryResult :=
  let finalSummary := postProcessSummary merged vp.focus
  let wordCount := (pySplitWs finalSummary).length
  let chunkSummaries := outcomes.map Prod.fst
  let fallbackUsed := outcomes.any Prod.snd
  let baseConfidence : ℚ :=
    if chunks ≠ [] then (chunkSummaries.length : ℚ) / (chunks.length : ℚ) else 0
  let confidenceScore :=
    pyMinQ 1 (baseConfidence * (if fallbackUsed then 0.8 else 1))
  let capped :=
    if (wordCount : Int) > vp.maxWords then
      (pyJoin (str " ") ((pySplitWs finalSummary).take vp.maxWords.toNat) ++ str "...",
       vp.maxWords.toNat)
    else (finalSummary, wordCount)
  { originalFilename := originalFilename,
    summaryText := capped.1,
    processingTime := 0,
    wordCount := capped.2,
    confidenceScore := confidenceScore }

/-- `LegalSummarizer.summarize`.  The only statements inside the `try`
block that can raise in this model are `chunk_text` (RuntimeError when
the tokenizer is not loaded) and `merge_chunk_summaries` (tokenizer
access); per-chunk and merge-level generation failures are absorbed by
their local `try/except` ladders.  The `except` clause re-raises when a
chunk-level fallback was already used and otherwise returns the emergency
extractive summary, exactly as in lines 425-431 of the source. -/
def summarize (s : LegalSummarizer) (text : Str) (params : SummaryParams)
    (originalFilename : Str) : Except PyErr SummaryResult :=
  match s.summarizerPipeline with
  | none => .error (.runtimeError (str "Model not loaded. Call load_model() first."))
  | some _ =>
    let vp := validateAndSanitizeParams params
    let processed := applyFocusSpecificProcessing text vp.focus
    let modelParams := getSummaryLengthParams vp.length vp.focus
    match chunkText s processed none with
    | .error _ =>
      -- exception before any fallback could be used: emergency path
      .ok (createEmergencyFallbackSummary text vp originalFilename)
    | .ok chunks =>
      let outcomes := summarizeChunks s modelParams vp.focus chunks
      let chunkSummaries := outcomes.map Prod.fst
      let fallbackUsed := outcomes.any Prod.snd
      let mergeRes : Except PyErr Str :=
        if chunkSummaries.length > 1 then
          (mergeChunkSummaries s chunkSummaries).map Prod.fst
        else .ok (chunkSummaries.headD (str "Unable to generate summary."))
      match mergeRes with
      | .error e =>
        if fallbackUsed then .error (.exception (str "Failed to generate summary: " ++ e.msg))
        else .ok (createEmergencyFallbackSummary text vp originalFilename)
      | .ok merged =>
        .ok (finishSummary originalFilename vp chunks outcomes merged)

/-! ## Basic lemmas about the string primitives -/

theorem mem_dropWhile_of_not {p : Char → Bool} {c : Char} {s : Str}
    (hm : c ∈ s) (hc : p c = false) : c ∈ s.dropWhile p := by
  induction s with
  | nil => cases hm
  | cons a t ih =>
    rcases List.mem_cons.mp hm with h | h
    · subst h
      rw [List.dropWhile, hc]
      exact List.mem_cons_self ..
    · rw [List.dropWhile]
      cases hpa : p a
      · exact List.mem_cons_of_mem _ h
      · exact ih h

/-- A string containing a non-whitespace character does not strip to the
empty string. -/
theorem pyStrip_ne_nil {s : Str} {c : Char} (hm : c ∈ s)
    (hc : isPySpace c = false) : pyStrip s ≠ [] := by
  intro h
  have h1 : (s.dropWhile isPySpace).reverse.dropWhile isPySpace = [] :=
    List.reverse_eq_nil_iff.mp h
  have h3 : c ∈ s.dropWhile isPySpace := mem_dropWhile_of_not hm hc
  have h4 := List.dropWhile_eq_nil_iff.mp h1 c (List.mem_reverse.mpr h3)
  rw [hc] at h4
  cases h4

theorem dot_mem_append_dot_space (x : Str) : '.' ∈ x ++ str ". " := by
  exact List.mem_append_right x (by simp [str])

/-- `splitDotSpace` never returns the empty list (Python `split` always
yields at least one piece). -/
theorem splitDotSpace_ne_nil (s : Str) : splitDotSpace s ≠ [] := by
  rw [splitDotSpace.eq_def]
  split
  · simp
  · simp
  · split <;> simp

/-- A string all of whose characters are non-whitespace. -/
def SpaceFree (w : Str) : Prop := ∀ c ∈ w, isPySpace c = false

instance (w : Str) : Decidable (SpaceFree w) := by
  unfold SpaceFree; infer_instance

theorem pySplitAux_nil (acc : Str) :
    pySplitAux acc [] = if acc.isEmpty then [] else [acc.reverse] := rfl

theorem pySplitAux_space (acc s : Str) :
    pySplitAux acc (' ' :: s) =
      if acc.isEmpty then pySplitAux [] s else acc.reverse :: pySplitAux [] s := by
  simp [pySplitAux, isPySpace]

/-- Scanning a space-free block just accumulates it. -/
theorem pySplitAux_append_word (w : Str) (hw : SpaceFree w) :
    ∀ (acc s : Str), pySplitAux acc (w ++ s) = pySplitAux (w.reverse ++ acc) s := by
  induction w with
  | nil => intro acc s; simp
  | cons c t ih =>
    intro acc s
    have hc : isPySpace c = false := hw c (List.mem_cons_self ..)
    have ht : SpaceFree t := fun d hd => hw d (List.mem_cons_of_mem _ hd)
    rw [List.cons_append, pySplitAux, hc]
    simp only [Bool.false_eq_true, if_false]
    rw [ih ht (c :: acc) s]
    simp [List.append_assoc]

/-- A non-empty space-free string splits into itself alone. -/
theorem pySplitWs_single (w : Str) (hne : w ≠ []) (hw : SpaceFree w) :
    pySplitWs w = [w] := by
  have := pySplitAux_append_word w hw [] []
  rw [List.append_nil] at this
  rw [pySplitWs, this, pySplitAux_nil, List.append_nil]
  rw [if_neg (by simpa using hne)]
  simp

/-- Splitting a space-joined list of non-empty space-free words, with a
non-empty space-free tail glued onto the last word, recovers the words
(with the tail attached to the last one). -/
theorem pySplitWs_join_ext (ws : List Str) (hne : ws ≠ [])
    (hws : ∀ w ∈ ws, w ≠ [] ∧ SpaceFree w)
    (ext : Str) (hext : SpaceFree ext) :
    pySplitWs (pyJoin (str " ") ws ++ ext) =
      ws.dropLast ++ [ws.getLastD [] ++ ext] := by
  induction ws with
  | nil => cases hne rfl
  | cons w rest ih =>
    obtain ⟨hwne, hwsf⟩ := hws w (List.mem_cons_self ..)
    cases rest with
    | nil =>
      rw [pyJoin]
      have h1 : SpaceFree (w ++ ext) := by
        intro c hc
        rcases List.mem_append.mp hc with h | h
        · exact hwsf c h
        · exact hext c h
      rw [pySplitWs_single (w ++ ext) (by simp [hwne]) h1]
      simp
    | cons y rest2 =>
      have hrest : (y :: rest2 : List Str) ≠ [] := by simp
      have hws2 : ∀ v ∈ y :: rest2, v ≠ [] ∧ SpaceFree v :=
        fun v hv => hws v (List.mem_cons_of_mem _ hv)
      rw [pyJoin]
      have hassoc : (w ++ str " " ++ pyJoin (str " ") (y :: rest2)) ++ ext =
          w ++ (' ' :: (pyJoin (str " ") (y :: rest2) ++ ext)) := by
        simp [str, List.append_assoc]
      rw [hassoc, pySplitWs, pySplitAux_append_word w hwsf, List.append_nil,
        pySplitAux_space]
      rw [if_neg (by simpa using hwne)]
      have ihh := ih hrest hws2
      rw [pySplitWs] at ihh
      rw [ihh]
      simp

/-- Length form of `pySplitWs_join_ext`. -/
theorem pySplitWs_join_ext_length (ws : List Str) (hne : ws ≠ [])
    (hws : ∀ w ∈ ws, w ≠ [] ∧ SpaceFree w)
    (ext : Str) (hext : SpaceFree ext) :
    (pySplitWs (pyJoin (str " ") ws ++ ext)).length = ws.length := by
  rw [pySplitWs_join_ext ws hne hws ext hext]
  simp only [List.length_append, List.length_dropLast, List.length_cons,
    List.length_nil]
  have : 0 < ws.length := List.length_pos.mpr hne
  omega

/-- Every word produced by `pySplitWs` is non-empty and space-free. -/
theorem pySplitAux_words (s : Str) :
    ∀ acc : Str, SpaceFree acc →
      ∀ w ∈ pySplitAux acc s, w ≠ [] ∧ SpaceFree w := by
  induction s with
  | nil =>
    intro acc hacc w hw
    rw [pySplitAux_nil] at hw
    split at hw
    · cases hw
    · rename_i hne
      rw [List.mem_singleton] at hw
      subst hw
      refine ⟨by simpa using hne, fun c hc => hacc c (List.mem_reverse.mp hc)⟩
  | cons c rest ih =>
    intro acc hacc w hw
    rw [pySplitAux] at hw
    split at hw
    · split at hw
      · exact ih [] (by intro d hd; cases hd) w hw
      · rename_i hne
        rcases List.mem_cons.mp hw with h | h
        · subst h
          refine ⟨by simpa using hne, fun d hd => hacc d (List.mem_reverse.mp hd)⟩
        · exact ih [] (by intro d hd; cases hd) w h
    · rename_i hc
      refine ih (c :: acc) ?_ w hw
      intro d hd
      rcases List.mem_cons.mp hd with h | h
      · subst h; simpa using hc
      · exact hacc d h

theorem pySplitWs_words (s : Str) :
    ∀ w ∈ pySplitWs s, w ≠ [] ∧ SpaceFree w :=
  pySplitAux_words s [] (fun d hd => by cases hd)

/-- Splitting after the `"[Extractive Summary] "` tag: the tag contributes
exactly two extra words. -/
theorem pySplitWs_extractive_tag (x : Str) :
    pySplitWs (str "[Extractive Summary] " ++ x) =
      str "[Extractive" :: str "Summary]" :: pySplitWs x := by
  have h : str "[Extractive Summary] " ++ x =
      str "[Extractive" ++ (' ' :: (str "Summary]" ++ (' ' :: x))) := rfl
  rw [pySplitWs, h, pySplitAux_append_word (str "[Extractive") (by decide),
    List.append_nil, pySplitAux_space]
  rw [if_neg (by decide)]
  rw [pySplitAux_append_word (str "Summary]") (by decide), List.append_nil,
    pySplitAux_space]
  rw [if_neg (by decide)]
  rw [pySplitWs]
  congr 1

/-! ## Claim C6: chunk round-trip for texts within the token budget -/

/-- C6: for every input text whose token count is at most `max_tokens`,
`chunk_text(text, max_tokens)` returns exactly the one-element list
`[text]` — the input unchanged, with no splitting applied. -/
theorem C6_chunk_roundtrip (s : LegalSummarizer) (tk : Tokenizer) (text : Str)
    (m : Nat) (h1 : s.tokenizer = some tk) (h2 : tk.encodeLen text ≤ m) :
    chunkText s text (some m) = .ok [text] := by
  simp [chunkText, h1, h2]

/-- Witness for C6 at a concrete summarizer, tokenizer and text. -/
theorem C6_chunk_roundtrip_witness :
    (LegalSummarizer.loaded ⟨fun _ => 3, fun _ => 3⟩ (fun _ _ => none)).tokenizer
        = some ⟨fun _ => 3, fun _ => 3⟩ ∧
    (3 : Nat) ≤ 10 ∧
    chunkText (LegalSummarizer.loaded ⟨fun _ => 3, fun _ => 3⟩ (fun _ _ => none))
        (str "short text") (some 10) = .ok [str "short text"] :=
  ⟨rfl, by decide,
   C6_chunk_roundtrip _ ⟨fun _ => 3, fun _ => 3⟩ (str "short text") 10 rfl (by decide)⟩

/-! ## Claim C7: merge on zero or one chunk summaries -/

/-- C7: `merge_chunk_summaries` applied to an empty list returns the empty
string, and applied to a one-element list returns that summary unchanged;
in both cases it performs zero pipeline (model adapter) calls — the call
counter in the result is 0.  This holds for every summarizer state, since
the early returns precede every tokenizer or pipeline access. -/
theorem C7_merge_trivial_cases :
    (∀ s : LegalSummarizer, mergeChunkSummaries s [] = .ok ([], 0)) ∧
    (∀ (s : LegalSummarizer) (x : Str), mergeChunkSummaries s [x] = .ok (x, 0)) :=
  ⟨fun _ => rfl, fun _ _ => rfl⟩

/-! ## Claim C10: fail-fast when the model is not loaded -/

/-- C10: when the model has not been loaded (tokenizer and pipeline both
still `None`, so `is_model_loaded()` is false), `chunk_text` and
`summarize` raise `RuntimeError` immediately; being pure functions of the
summarizer state, they change nothing and produce no result. -/
theorem C10_not_loaded_raises (s : LegalSummarizer) (text : Str)
    (maxL : Option Nat) (params : SummaryParams) (fn : Str)
    (h1 : s.tokenizer = none) (h2 : s.summarizerPipeline = none) :
    s.isModelLoaded = false ∧
    chunkText s text maxL =
      .error (.runtimeError (str "Model not loaded. Call load_model() first.")) ∧
    summarize s text params fn =
      .error (.runtimeError (str "Model not loaded. Call load_model() first.")) := by
  refine ⟨?_, ?_, ?_⟩ <;>
    simp [LegalSummarizer.isModelLoaded, chunkText, summarize, h1, h2]

/-- Witness for C10 at the freshly constructed summarizer. -/
theorem C10_not_loaded_raises_witness :
    LegalSummarizer.init.tokenizer = none ∧
    LegalSummarizer.init.summarizerPipeline = none ∧
    (LegalSummarizer.init.isModelLoaded = false ∧
     chunkText LegalSummarizer.init (str "Some text") none =
       .error (.runtimeError (str "Model not loaded. Call load_model() first.")) ∧
     summarize LegalSummarizer.init (str "Some text")
         ⟨str "standard", str "general", 300⟩ (str "f.txt") =
       .error (.runtimeError (str "Model not loaded. Call load_model() first."))) :=
  ⟨rfl, rfl,
   C10_not_loaded_raises LegalSummarizer.init (str "Some text") none
     ⟨str "standard", str "general", 300⟩ (str "f.txt") rfl rfl⟩

/-! ## Structural lemmas about the pipeline -/

/-- With a loaded tokenizer, `chunk_text` never raises. -/
theorem chunkText_isOk (s : LegalSummarizer) (tk : Tokenizer) (text : Str)
    (maxL : Option Nat) (h : s.tokenizer = some tk) :
    ∃ l, chunkText s text maxL = .ok l := by
  simp only [chunkText, h]
  split
  · exact ⟨_, rfl⟩
  · exact ⟨_, rfl⟩

/-- After folding at least one sentence, the accumulated state has either
a closed chunk or a non-empty current buffer (the buffer always ends in
`". "`, whose dot survives stripping). -/
theorem chunkFold_flush (tk : Tokenizer) (m : Nat) (st : List Str × Str × Nat)
    (ss : List Str) (hss : ss ≠ []) :
    (ss.foldl (chunkStep tk m) st).1 ≠ [] ∨
      pyStrip (ss.foldl (chunkStep tk m) st).2.1 ≠ [] := by
  rcases List.eq_nil_or_concat ss with rfl | ⟨as, a, rfl⟩
  · cases hss rfl
  · rw [List.concat_eq_append, List.foldl_append, List.foldl_cons, List.foldl_nil]
    rw [chunkStep]
    split
    · left; simp
    · right
      exact pyStrip_ne_nil (c := '.')
        (List.mem_append_right _ (by simp [str])) (by decide)

/-- A successful `chunk_text` never returns the empty list. -/
theorem chunkText_ok_ne_nil {s : LegalSummarizer} {text : Str}
    {maxL : Option Nat} {l : List Str}
    (h : chunkText s text maxL = .ok l) : l ≠ [] := by
  rcases htk : s.tokenizer with _ | tk
  · simp only [chunkText, htk] at h
    exact Except.noConfusion h
  · simp only [chunkText, htk] at h
    split at h
    · injection h with h2
      subst h2
      simp
    · have hfl := chunkFold_flush tk (maxL.getD s.maxChunkSize) ([], [], 0)
        (splitDotSpace text) (splitDotSpace_ne_nil text)
      injection h with h2
      subst h2
      split
      · simp
      · rename_i hcond
        rcases hfl with hfl | hfl
        · exact hfl
        · exact absurd hfl (by simpa using hcond)

/-- With a loaded tokenizer, `merge_chunk_summaries` never raises. -/
theorem mergeChunkSummaries_isOk (s : LegalSummarizer) (tk : Tokenizer)
    (l : List Str) (h : s.tokenizer = some tk) :
    ∃ p, mergeChunkSummaries s l = .ok p := by
  match l with
  | [] => exact ⟨_, rfl⟩
  | [x] => exact ⟨_, rfl⟩
  | x :: y :: rest =>
    simp only [mergeChunkSummaries, h]
    split
    · obtain ⟨cs, hcs⟩ :=
        chunkText_isOk s tk (pyJoin (str " ") (x :: y :: rest))
          (some (s.maxChunkSize / 2)) h
      rw [hcs]
      exact ⟨_, rfl⟩
    · cases hcp : callPipe s (pyJoin (str " ") (x :: y :: rest)) mergeDirectParams with
      | none => exact ⟨_, rfl⟩
      | some r => exact ⟨_, rfl⟩

/-- The per-chunk loop yields exactly one outcome per chunk. -/
theorem summarizeChunks_length (s : LegalSummarizer) (mp : GenParams)
    (focus : Str) (chunks : List Str) :
    (summarizeChunks s mp focus chunks).length = chunks.length := by
  simp [summarizeChunks]

/-- Sanitized `max_words` is at least 50. -/
theorem validate_maxWords_ge (p : SummaryParams) :
    50 ≤ (validateAndSanitizeParams p).maxWords := by
  simp only [validateAndSanitizeParams, pyMaxI, pyMinI]
  split <;> (try split) <;> omega

/-- The confidence score assembled by `finishSummary`: since every chunk
yields exactly one summary, the base fraction is 1 whenever `chunks` is
non-empty, so the score is 0.8 with any degradation and 1.0 without. -/
theorem finishSummary_confidence (fn : Str) (vp : SummaryParams)
    (chunks : List Str) (outcomes : List (Str × Bool)) (merged : Str)
    (hcne : chunks ≠ []) (hlen : outcomes.length = chunks.length) :
    (finishSummary fn vp chunks outcomes merged).confidenceScore =
      (if outcomes.any Prod.snd then (0.8 : ℚ) else 1) := by
  have hlq : ((chunks.length : ℚ)) ≠ 0 := by
    simpa using hcne
  rw [finishSummary]
  simp only
  rw [if_pos hcne, List.length_map, hlen, div_self hlq, one_mul]
  cases outcomes.any Prod.snd <;> norm_num [pyMinQ]

/-- The word count assembled by `finishSummary` always equals the
whitespace word count of the summary text it ships, provided the
sanitized word limit is positive (it is always at least 50). -/
theorem finishSummary_wordCount (fn : Str) (vp : SummaryParams)
    (chunks : List Str) (outcomes : List (Str × Bool)) (merged : Str)
    (hmw : 50 ≤ vp.maxWords) :
    (finishSummary fn vp chunks outcomes merged).wordCount =
      (pySplitWs (finishSummary fn vp chunks outcomes merged).summaryText).length := by
  rw [finishSummary]
  simp only
  split
  · rename_i htr
    have hlen : vp.maxWords.toNat <
        (pySplitWs (postProcessSummary merged vp.focus)).length := by
      omega
    rw [pySplitWs_join_ext_length]
    · rw [List.length_take]
      omega
    · intro hnil
      have hc := congrArg List.length hnil
      rw [List.length_take, List.length_nil] at hc
      omega
    · intro w hw
      exact pySplitWs_words _ w (List.take_subset _ _ hw)
    · decide
  · rfl

/-- Master lemma for the main pipeline path: with tokenizer and pipeline
loaded, and `chunk_text` of the emphasized text returning `chunks`,
`summarize` returns (it cannot raise), the result is assembled by
`finishSummary` from the per-chunk outcomes, its confidence score is 0.8
exactly when some chunk outcome was degraded (1.0 otherwise), and its
word count equals the whitespace word count of its own summary text. -/
theorem summarize_main (s : LegalSummarizer) (tk : Tokenizer) (pl : Pipeline)
    (text : Str) (params : SummaryParams) (fn : Str) (chunks : List Str)
    (h1 : s.tokenizer = some tk) (h2 : s.summarizerPipeline = some pl)
    (hch : chunkText s
      (applyFocusSpecificProcessing text (validateAndSanitizeParams params).focus)
      none = .ok chunks) :
    ∃ r : SummaryResult, summarize s text params fn = .ok r ∧
      r.confidenceScore =
        (if (summarizeChunks s
              (getSummaryLengthParams (validateAndSanitizeParams params).length
                (validateAndSanitizeParams params).focus)
              (validateAndSanitizeParams params).focus chunks).any Prod.snd
         then (0.8 : ℚ) else 1) ∧
      r.wordCount = (pySplitWs r.summaryText).length := by
  have hcne : chunks ≠ [] := chunkText_ok_ne_nil hch
  simp only [summarize, h2]
  set vp := validateAndSanitizeParams params with hvp
  set mp := getSummaryLengthParams vp.length vp.focus with hmp
  simp only [hch]
  set outcomes := summarizeChunks s mp vp.focus chunks with hout
  have hlen : outcomes.length = chunks.length := by
    rw [hout, summarizeChunks_length]
  have hfin : ∀ merged : Str,
      (finishSummary fn vp chunks outcomes merged).confidenceScore =
          (if outcomes.any Prod.snd then (0.8 : ℚ) else 1) ∧
      (finishSummary fn vp chunks outcomes merged).wordCount =
          (pySplitWs (finishSummary fn vp chunks outcomes merged).summaryText).length :=
    fun merged =>
      ⟨finishSummary_confidence fn vp chunks outcomes merged hcne hlen,
       finishSummary_wordCount fn vp chunks outcomes merged (validate_maxWords_ge params)⟩
  have hmr : ∃ merged,
      (if (outcomes.map Prod.fst).length > 1 then
        (mergeChunkSummaries s (outcomes.map Prod.fst)).map Prod.fst
       else .ok ((outcomes.map Prod.fst).headD (str "Unable to generate summary."))) =
      .ok merged := by
    split
    · obtain ⟨⟨mt, mc⟩, hm⟩ := mergeChunkSummaries_isOk s tk (outcomes.map Prod.fst) h1
      rw [hm]
      exact ⟨mt, rfl⟩
    · exact ⟨_, rfl⟩
  obtain ⟨merged, hmr⟩ := hmr
  simp only [hmr]
  exact ⟨_, rfl, (hfin merged).1, (hfin merged).2⟩

/-! ## Claim C5: four sentences whose pairs exceed the budget -/

/-- Concrete tokenizer for the C5 scenario: the whole four-sentence text
counts 240 tokens, every individual sentence fragment counts 60. -/
def c5tok : Tokenizer :=
  ⟨fun s => if s.length > 20 then 240 else 60, fun s => s.length⟩

/-- Summarizer loaded with the C5 tokenizer (the pipeline is irrelevant
to `chunk_text`). -/
def c5sum : LegalSummarizer := LegalSummarizer.loaded c5tok (fun _ _ => none)

/-- The C5 input: four short sentences. -/
def c5text : Str := str "One a. Two b. Three c. Four d"

/-- C5 counterexample: at this input every sentence fits alone in the
budget of 100 tokens (60 each) and every pair exceeds it (120 > 100),
exactly the claim's premise, yet `chunk_text` returns FOUR single-sentence
chunks, not two chunks holding sentences 1+2 and 3+4: the greedy loop can
never place two sentences in one chunk when each pair exceeds the limit. -/
theorem C5_counterexample :
    splitDotSpace c5text = [str "One a", str "Two b", str "Three c", str "Four d"] ∧
    c5tok.encodeLen c5text = 240 ∧
    c5tok.encodeLen (str "One a") = 60 ∧
    c5tok.encodeLen (str "Two b") = 60 ∧
    c5tok.encodeLen (str "Three c") = 60 ∧
    c5tok.encodeLen (str "Four d") = 60 ∧
    (60 ≤ 100 ∧ 60 + 60 > 100) ∧
    chunkText c5sum c5text (some 100) =
      .ok [str "One a.", str "Two b.", str "Three c.", str "Four d."] ∧
    chunkText c5sum c5text (some 100) ≠
      .ok [str "One a. Two b.", str "Three c. Four d."] := by
  decide

/-- C5 as amended: under the stated premise (each pair of sentences
jointly exceeds `max_tokens`), `chunk_text` returns four chunks, one
sentence each; the claimed two-chunk 1+2/3+4 grouping instead requires
each adjacent pair to fit inside the budget. -/
theorem C5_amended_four_singleton_chunks (s : LegalSummarizer) (tk : Tokenizer)
    (text a b c d : Str) (m : Nat)
    (h1 : s.tokenizer = some tk)
    (hsp : splitDotSpace text = [a, b, c, d])
    (htot : ¬ tk.encodeLen text ≤ m)
    (ha : tk.encodeLen a ≤ m) (hb : tk.encodeLen b ≤ m)
    (hc : tk.encodeLen c ≤ m) (hd : tk.encodeLen d ≤ m)
    (hab : tk.encodeLen a + tk.encodeLen b > m)
    (hbc : tk.encodeLen b + tk.encodeLen c > m)
    (hcd : tk.encodeLen c + tk.encodeLen d > m) :
    chunkText s text (some m) =
      .ok [pyStrip (a ++ str ". "), pyStrip (b ++ str ". "),
           pyStrip (c ++ str ". "), pyStrip (d ++ str ". ")] := by
  have e1 : chunkStep tk m ([], [], 0) a = ([], a ++ str ". ", 0 + tk.encodeLen a) := by
    simp [chunkStep, str]
  have e2 : chunkStep tk m ([], a ++ str ". ", 0 + tk.encodeLen a) b =
      ([pyStrip (a ++ str ". ")], b ++ str ". ", tk.encodeLen b) := by
    simp [chunkStep, str, Nat.lt_of_lt_of_le, hab]
  have e3 : chunkStep tk m ([pyStrip (a ++ str ". ")], b ++ str ". ", tk.encodeLen b) c =
      ([pyStrip (a ++ str ". "), pyStrip (b ++ str ". ")], c ++ str ". ", tk.encodeLen c) := by
    simp [chunkStep, str, hbc]
  have e4 : chunkStep tk m ([pyStrip (a ++ str ". "), pyStrip (b ++ str ". ")],
        c ++ str ". ", tk.encodeLen c) d =
      ([pyStrip (a ++ str ". "), pyStrip (b ++ str ". "), pyStrip (c ++ str ". ")],
        d ++ str ". ", tk.encodeLen d) := by
    simp [chunkStep, str, hcd]
  simp only [chunkText, h1, Option.getD_some]
  rw [if_neg htot, hsp]
  simp only [List.foldl, e1, e2, e3, e4]
  rw [if_pos (pyStrip_ne_nil (dot_mem_append_dot_space d) (by decide))]
  simp

/-- Witness for the amended C5 at the concrete four-sentence input. -/
theorem C5_amended_witness :
    splitDotSpace c5text = [str "One a", str "Two b", str "Three c", str "Four d"] ∧
    chunkText c5sum c5text (some 100) =
      .ok [pyStrip (str "One a" ++ str ". "), pyStrip (str "Two b" ++ str ". "),
           pyStrip (str "Three c" ++ str ". "), pyStrip (str "Four d" ++ str ". ")] :=
  ⟨by decide,
   C5_amended_four_singleton_chunks c5sum c5tok c5text
     (str "One a") (str "Two b") (str "Three c") (str "Four d") 100
     rfl (by decide) (by decide) (by decide) (by decide) (by decide)
     (by decide) (by decide) (by decide) (by decide)⟩

/-! ## Claims C1-C4: pipeline-level behavior -/

/-- Default request parameters (`standard` / `general` / 300 words). -/
def stdParams : SummaryParams := ⟨str "standard", str "general", 300⟩

/-- C1 fixture tokenizer: the full two-sentence text counts 2000 tokens
(forcing a split), each single sentence 600. -/
def c1tok : Tokenizer :=
  ⟨fun s => if pyIn (str "alpha") s && pyIn (str "beta") s then 2000 else 600,
   fun _ => 10⟩

/-- C1 fixture pipeline: generation succeeds exactly on inputs containing
"alpha", so chunk 1 succeeds on the primary call and chunk 2 exhausts
both model tiers and degrades to the extractive tier. -/
def c1pipe : Pipeline :=
  fun input _ => if pyIn (str "alpha") input then some (str "sum1") else none

def c1sum : LegalSummarizer := LegalSummarizer.loaded c1tok c1pipe

def c1text : Str := str "alpha one. beta two"

/-- C1 counterexample: a two-chunk run in which exactly one chunk needed
no fallback.  The claim predicts `confidence = (1/2) * 0.8 = 0.4`; the
code computes `base = len(chunk_summaries)/len(chunks)`, and since every
chunk (degraded or not) contributes a summary, `base = 1` and the result
is `0.8`. -/
theorem C1_counterexample :
    chunkText c1sum (applyFocusSpecificProcessing c1text (str "general")) none =
      .ok [str "alpha one.", str "beta two."] ∧
    summarizeChunks c1sum
        (getSummaryLengthParams (str "standard") (str "general")) (str "general")
        [str "alpha one.", str "beta two."] =
      [(str "sum1", false), (str "beta two..", true)] ∧
    summarize c1sum c1text stdParams (str "f.pdf") =
      .ok { originalFilename := str "f.pdf", summaryText := str "sum1 beta two..",
            processingTime := 0, wordCount := 3, confidenceScore := 0.8 } ∧
    ((1 : ℚ) / 2) * 0.8 ≠ 0.8 :=
  ⟨by decide, by decide, by with_unfolding_all rfl, by norm_num⟩

/-- C1 as amended: the base fraction is `len(chunk_summaries) /
len(chunks)`, and every chunk contributes a summary whether or not it
degraded, so the fraction is 1 and the returned confidence is exactly 0.8
when any chunk outcome was degraded and 1.0 otherwise (0.8 < 1, so a
degraded run still scores strictly below an undegraded one). -/
theorem C1_amended_confidence (s : LegalSummarizer) (tk : Tokenizer)
    (pl : Pipeline) (text : Str) (params : SummaryParams) (fn : Str)
    (chunks : List Str)
    (h1 : s.tokenizer = some tk) (h2 : s.summarizerPipeline = some pl)
    (hch : chunkText s
      (applyFocusSpecificProcessing text (validateAndSanitizeParams params).focus)
      none = .ok chunks) :
    ∃ r : SummaryResult, summarize s text params fn = .ok r ∧
      r.confidenceScore =
        (if (summarizeChunks s
              (getSummaryLengthParams (validateAndSanitizeParams params).length
                (validateAndSanitizeParams params).focus)
              (validateAndSanitizeParams params).focus chunks).any Prod.snd
         then (0.8 : ℚ) else 1) ∧
      (0.8 : ℚ) < 1 := by
  obtain ⟨r, hr, hc, _⟩ := summarize_main s tk pl text params fn chunks h1 h2 hch
  exact ⟨r, hr, hc, by norm_num⟩

/-- Witness for the amended C1 at the concrete partially-degraded run. -/
theorem C1_amended_confidence_witness :
    ∃ r : SummaryResult, summarize c1sum c1text stdParams (str "f.pdf") = .ok r ∧
      r.confidenceScore =
        (if (summarizeChunks c1sum
              (getSummaryLengthParams (validateAndSanitizeParams stdParams).length
                (validateAndSanitizeParams stdParams).focus)
              (validateAndSanitizeParams stdParams).focus
              [str "alpha one.", str "beta two."]).any Prod.snd
         then (0.8 : ℚ) else 1) ∧
      (0.8 : ℚ) < 1 :=
  C1_amended_confidence c1sum c1tok c1pipe c1text stdParams (str "f.pdf")
    [str "alpha one.", str "beta two."] rfl rfl (by decide)

/-- C2 fixture: loaded summarizer whose generation always succeeds. -/
def c2tok : Tokenizer := ⟨fun _ => 0, fun _ => 0⟩

def c2pipe : Pipeline := fun _ _ => some (str "A fine summary.")

def c2sum : LegalSummarizer := LegalSummarizer.loaded c2tok c2pipe

/-- C2 counterexample: `summarize` on the empty string with the model
loaded does NOT raise any `EmptyInputError` — no empty-input check exists
in the code; the empty text flows through the pipeline as a single empty
chunk and a normal `SummaryResult` is returned. -/
theorem C2_counterexample :
    pyStrip (str "") = [] ∧
    summarize c2sum (str "") stdParams (str "f.txt") =
      .ok { originalFilename := str "f.txt", summaryText := str "A fine summary.",
            processingTime := 0, wordCount := 3, confidenceScore := 1 } :=
  ⟨by decide, by with_unfolding_all rfl⟩

/-- C2 as amended: `summarize` performs no empty-input validation and
never raises `EmptyInputError`; with the model loaded
(`summarizer_pipeline` present) it returns a `SummaryResult` for every
input text — including empty and whitespace-only ones — because
chunk-level and merge-level failures are absorbed by the fallback
ladders, and a `chunk_text` failure (tokenizer missing) is absorbed by
the emergency extractive path. -/
theorem C2_amended_never_raises (s : LegalSummarizer) (pl : Pipeline)
    (text : Str) (params : SummaryParams) (fn : Str)
    (h2 : s.summarizerPipeline = some pl) :
    ∃ r : SummaryResult, summarize s text params fn = .ok r := by
  rcases htk : s.tokenizer with _ | tk
  · have hce : chunkText s
        (applyFocusSpecificProcessing text (validateAndSanitizeParams params).focus)
        none = .error (.runtimeError (str "Model not loaded. Call load_model() first.")) := by
      simp [chunkText, htk]
    simp only [summarize, h2]
    simp only [hce]
    exact ⟨_, rfl⟩
  · obtain ⟨chunks, hch⟩ := chunkText_isOk s tk
      (applyFocusSpecificProcessing text (validateAndSanitizeParams params).focus)
      none htk
    obtain ⟨r, hr, _, _⟩ := summarize_main s tk pl text params fn chunks htk h2 hch
    exact ⟨r, hr⟩

/-- Witness for the amended C2 at the empty input. -/
theorem C2_amended_never_raises_witness :
    ∃ r : SummaryResult, summarize c2sum (str "") stdParams (str "f.txt") = .ok r :=
  C2_amended_never_raises c2sum c2pipe (str "") stdParams (str "f.txt") rfl

/-- C3 fixture: pipeline present but tokenizer missing, so `chunk_text`
raises inside the `try` block before any fallback is used, which sends
`summarize` down the emergency extractive path. -/
def c3sum : LegalSummarizer :=
  { tokenizer := none,
    summarizerPipeline := some (fun _ _ => some (str "S")),
    maxChunkSize := 1024 }

def c3text : Str := str "Alpha beta. Gamma delta. Epsilon zeta. Eta theta. Iota kappa."

/-- C3 counterexample: on the emergency extractive path the code sets
`word_count = len(fallback_summary.split())` and then prepends
`"[Extractive Summary] "` to the summary text, so the stored word count
(8) differs from `len(summary_text.split())` (10): the invariant fails
for emergency results. -/
theorem C3_counterexample :
    summarize c3sum c3text stdParams (str "f.txt") =
      .ok { originalFilename := str "f.txt",
            summaryText :=
              str "[Extractive Summary] Alpha beta. Gamma delta. Epsilon zeta. Eta theta.",
            processingTime := 0, wordCount := 8, confidenceScore := 0.3 } ∧
    (pySplitWs
      (str "[Extractive Summary] Alpha beta. Gamma delta. Epsilon zeta. Eta theta.")).length
      = 10 ∧
    (8 : Nat) ≠ 10 :=
  ⟨by with_unfolding_all rfl, by decide, by decide⟩

/-- C3 as amended: `word_count == len(summary_text.split())` holds for
every result of the main pipeline path (truncation recomputes it), but on
the emergency extractive path the stored `word_count` is computed before
the `"[Extractive Summary] "` tag is prepended, so there
`len(summary_text.split()) == word_count + 2`. -/
theorem C3_amended_wordCount :
    (∀ (s : LegalSummarizer) (tk : Tokenizer) (pl : Pipeline) (text : Str)
        (params : SummaryParams) (fn : Str) (chunks : List Str),
        s.tokenizer = some tk → s.summarizerPipeline = some pl →
        chunkText s
          (applyFocusSpecificProcessing text (validateAndSanitizeParams params).focus)
          none = .ok chunks →
        ∃ r : SummaryResult, summarize s text params fn = .ok r ∧
          r.wordCount = (pySplitWs r.summaryText).length) ∧
    (∀ (s : LegalSummarizer) (pl : Pipeline) (text : Str)
        (params : SummaryParams) (fn : Str),
        s.tokenizer = none → s.summarizerPipeline = some pl →
        summarize s text params fn =
          .ok (createEmergencyFallbackSummary text (validateAndSanitizeParams params) fn)) ∧
    (∀ (text : Str) (vp : SummaryParams) (fn : Str),
        (pySplitWs (createEmergencyFallbackSummary text vp fn).summaryText).length =
          (createEmergencyFallbackSummary text vp fn).wordCount + 2) := by
  refine ⟨?_, ?_, ?_⟩
  · intro s tk pl text params fn chunks h1 h2 hch
    obtain ⟨r, hr, _, hw⟩ := summarize_main s tk pl text params fn chunks h1 h2 hch
    exact ⟨r, hr, hw⟩
  · intro s pl text params fn htk h2
    have hce : chunkText s
        (applyFocusSpecificProcessing text (validateAndSanitizeParams params).focus)
        none = .error (.runtimeError (str "Model not loaded. Call load_model() first.")) := by
      simp [chunkText, htk]
    simp only [summarize, h2]
    simp only [hce]
  · intro text vp fn
    simp only [createEmergencyFallbackSummary]
    rw [pySplitWs_extractive_tag]
    simp only [List.length_cons]

/-- Witness for the amended C3: the main-path clause at a loaded
summarizer, and the emergency clauses at the concrete C3 fixture. -/
theorem C3_amended_wordCount_witness :
    (∃ r : SummaryResult, summarize c2sum (str "Hello world.") stdParams (str "f.txt") = .ok r ∧
      r.wordCount = (pySplitWs r.summaryText).length) ∧
    summarize c3sum c3text stdParams (str "f.txt") =
      .ok (createEmergencyFallbackSummary c3text (validateAndSanitizeParams stdParams) (str "f.txt")) ∧
    (pySplitWs (createEmergencyFallbackSummary c3text (validateAndSanitizeParams stdParams)
        (str "f.txt")).summaryText).length =
      (createEmergencyFallbackSummary c3text (validateAndSanitizeParams stdParams)
        (str "f.txt")).wordCount + 2 :=
  ⟨C3_amended_wordCount.1 c2sum c2tok c2pipe (str "Hello world.") stdParams (str "f.txt")
      [str "Hello world."] rfl rfl (by decide),
   C3_amended_wordCount.2.1 c3sum (fun _ _ => some (str "S")) c3text stdParams (str "f.txt")
      rfl rfl,
   C3_amended_wordCount.2.2 c3text (validateAndSanitizeParams stdParams) (str "f.txt")⟩

/-- C4 fixture: loaded summarizer whose generation always fails. -/
def c4sum : LegalSummarizer :=
  LegalSummarizer.loaded ⟨fun _ => 5, fun _ => 5⟩ (fun _ _ => none)

def c4text : Str :=
  str "First sentence. Second sentence. Third sentence. Fourth sentence."

/-- C4 counterexample: with every generation call failing, the run is
absorbed by the per-chunk extractive tier, NOT the emergency path: the
result is the first three sentences with confidence 0.8 — it does not
start with "[Extractive Summary]" and its confidence is not 0.3. -/
theorem C4_counterexample :
    summarize c4sum c4text stdParams (str "f.pdf") =
      .ok { originalFilename := str "f.pdf",
            summaryText := str "First sentence. Second sentence. Third sentence.",
            processingTime := 0, wordCount := 6, confidenceScore := 0.8 } ∧
    (str "[Extractive Summary]").isPrefixOf
      (str "First sentence. Second sentence. Third sentence.") = false ∧
    (0.8 : ℚ) ≠ 0.3 :=
  ⟨by with_unfolding_all rfl, by decide, by norm_num⟩

/-- C4 as amended: when the model adapter fails every generation call but
the model is loaded, every chunk degrades to the extractive tier inside
the per-chunk ladder, so `summarize` returns normally with
`confidence_score = 0.8`; the `"[Extractive Summary]"` tag with
confidence 0.3 is produced only by the emergency path, which this
scenario never reaches. -/
theorem C4_amended_all_fail (s : LegalSummarizer) (tk : Tokenizer)
    (text : Str) (params : SummaryParams) (fn : Str) (chunks : List Str)
    (h1 : s.tokenizer = some tk)
    (h2 : s.summarizerPipeline = some (fun _ _ => none))
    (hch : chunkText s
      (applyFocusSpecificProcessing text (validateAndSanitizeParams params).focus)
      none = .ok chunks) :
    ∃ r : SummaryResult, summarize s text params fn = .ok r ∧
      r.confidenceScore = (0.8 : ℚ) := by
  obtain ⟨r, hr, hc, _⟩ := summarize_main s tk (fun _ _ => none) text params fn chunks h1 h2 hch
  refine ⟨r, hr, ?_⟩
  rw [hc, if_pos ?_]
  have hcp : ∀ (x : Str) (p : GenParams), callPipe s x p = none := by
    intro x p
    simp [callPipe, h2]
  obtain ⟨x, hx⟩ := List.exists_mem_of_ne_nil chunks (chunkText_ok_ne_nil hch)
  rw [summarizeChunks, List.any_eq_true]
  refine ⟨_, List.mem_map_of_mem _ hx, ?_⟩
  simp [hcp]

/-- Witness for the amended C4 at the concrete always-failing fixture. -/
theorem C4_amended_all_fail_witness :
    ∃ r : SummaryResult, summarize c4sum c4text stdParams (str "f.pdf") = .ok r ∧
      r.confidenceScore = (0.8 : ℚ) :=
  C4_amended_all_fail c4sum ⟨fun _ => 5, fun _ => 5⟩ c4text stdParams (str "f.pdf")
    [c4text] rfl rfl (by decide)

/-! ## Claim C8: the obligations focus label guard -/

/-- Python `in` agrees with list infix. -/
theorem pyIn_iff (needle hay : Str) : pyIn needle hay = true ↔ needle <:+: hay := by
  induction hay with
  | nil =>
    simp [pyIn, List.isEmpty_iff]
  | cons c t ih =>
    rw [pyIn]
    simp only [Bool.or_eq_true, List.isPrefixOf_iff_prefix, ih]
    exact (List.infix_cons_iff).symm

theorem infix_append_right {l x y : Str} (h : l <:+: x) : l <:+: x ++ y := by
  obtain ⟨u, v, huv⟩ := h
  exact ⟨u, v ++ y, by rw [← huv]; simp⟩

/-- C8 counterexample: the summary `"sha**ll**"` contains none of the
eleven obligation keywords as a (case-insensitive) substring, yet
`post_process` prepends the `"Key Obligations:"` label, because the
keyword check runs on the marker-stripped text `"shall"`, not on the
summary it was given. -/
theorem C8_counterexample :
    postProcessSummary (str "sha**ll**") (str "obligations") =
      str "Key Obligations: shall" ∧
    (obligationKeywords.all (fun kw => !(pyIn kw (pyLower (str "sha**ll**"))))) = true ∧
    (str "Key Obligations:").isPrefixOf
      (postProcessSummary (str "sha**ll**") (str "obligations")) = true := by
  refine ⟨by decide, by decide, by decide⟩

/-- C8 as amended: `post_process(summary, "obligations")` carries the
`"Key Obligations:"` prefix only when the marker-stripped summary
contains at least one of the obligation focus keywords (case-insensitive
substring); equivalently, if the stripped summary contains none of them
the prefix is absent from the output. -/
theorem C8_amended_label_guard (s : Str)
    (h : (str "Key Obligations:").isPrefixOf
      (postProcessSummary s (str "obligations")) = true) :
    (obligationKeywords.any (fun kw => pyIn kw (pyLower (stripEmph s)))) = true := by
  simp only [postProcessSummary] at h
  rw [if_pos trivial] at h
  by_cases hcond : (pyIn (str "obligation") (pyLower (stripEmph s)) ||
      pyIn (str "shall") (pyLower (stripEmph s))) = true
  · rw [List.any_eq_true]
    rcases Bool.or_eq_true .. ▸ hcond with hl | hl
    · exact ⟨str "obligation", by decide, hl⟩
    · exact ⟨str "shall", by decide, hl⟩
  · rw [if_neg (by simpa using hcond)] at h
    obtain ⟨rest, hrest⟩ := List.isPrefixOf_iff_prefix.mp h
    have hlow : pyLower (stripEmph s) = str "key obligations:" ++ pyLower rest := by
      rw [← hrest, pyLower, List.map_append]
      rfl
    have hobl : pyIn (str "obligation") (pyLower (stripEmph s)) = true := by
      rw [pyIn_iff, hlow]
      exact infix_append_right (by decide)
    simp [hobl] at hcond

/-- Witness for the amended C8: at `"shall"` the label does appear, and
the stripped summary indeed contains an obligation keyword. -/
theorem C8_amended_label_guard_witness :
    (str "Key Obligations:").isPrefixOf
      (postProcessSummary (str "shall") (str "obligations")) = true ∧
    (obligationKeywords.any (fun kw => pyIn kw (pyLower (stripEmph (str "shall"))))) = true :=
  ⟨by decide, C8_amended_label_guard (str "shall") (by decide)⟩

/-! ## Claim C9: emphasis-marker stripping is complete -/

/-- Does the string contain the delimiter substring `**`? -/
def hasDD : Str → Bool
  | [] => false
  | [_] => false
  | a :: b :: t => (a == '*' && b == '*') || hasDD (b :: t)

theorem beqChar_comm (a b : Char) : (a == b) = (b == a) := by
  by_cases h : a = b
  · rw [h]
  · rw [(beq_eq_false_iff_ne ..).mpr h, (beq_eq_false_iff_ne ..).mpr (Ne.symm h)]

theorem pyIn_dd_eq_hasDD (s : Str) : pyIn (str "**") s = hasDD s := by
  induction s with
  | nil => rfl
  | cons c t ih =>
    rw [pyIn, ih]
    cases t with
    | nil => simp [List.isPrefixOf, hasDD]
    | cons d t2 => simp [List.isPrefixOf, hasDD, beqChar_comm]

theorem hasDD_cons_ne {c : Char} (h : c ≠ '*') (t : Str) :
    hasDD (c :: t) = hasDD t := by
  cases t with
  | nil => rfl
  | cons d t2 =>
    rw [hasDD]
    simp [h]

theorem hasDD_append_starfree {w : Str} (h : '*' ∉ w) (X : Str) :
    hasDD (w ++ X) = hasDD X := by
  induction w with
  | nil => rfl
  | cons c w2 ih =>
    have hc : c ≠ '*' := fun hc => h (hc ▸ List.mem_cons_self ..)
    have hw2 : '*' ∉ w2 := fun hm => h (List.mem_cons_of_mem _ hm)
    rw [List.cons_append, hasDD_cons_ne hc, ih hw2]

theorem hasDD_star_cons {w : Str} (hne : w ≠ []) (hsf : '*' ∉ w) (X : Str) :
    hasDD ('*' :: (w ++ X)) = hasDD X := by
  cases w with
  | nil => cases hne rfl
  | cons c w2 =>
    have hc : c ≠ '*' := fun hc => hsf (hc ▸ List.mem_cons_self ..)
    have hcb : (c == '*') = false := by simpa using hc
    rw [List.cons_append, hasDD, hcb]
    simp only [Bool.false_and, Bool.and_false, Bool.false_or]
    rw [← List.cons_append, hasDD_append_starfree hsf]

/-- Every character is either an ASCII uppercase letter or fixed by
lower-casing. -/
theorem pyLowerChar_split (c : Char) :
    c ∈ (['A','B','C','D','E','F','G','H','I','J','K','L','M',
          'N','O','P','Q','R','S','T','U','V','W','X','Y','Z'] : List Char) ∨
      pyLowerChar c = c := by
  by_cases h : c ∈ (['A','B','C','D','E','F','G','H','I','J','K','L','M',
          'N','O','P','Q','R','S','T','U','V','W','X','Y','Z'] : List Char)
  · exact Or.inl h
  · right
    have hne : ∀ x ∈ (['A','B','C','D','E','F','G','H','I','J','K','L','M',
          'N','O','P','Q','R','S','T','U','V','W','X','Y','Z'] : List Char), c ≠ x :=
      fun x hx he => h (he ▸ hx)
    unfold pyLowerChar
    rw [if_neg (hne 'A' (by decide)), if_neg (hne 'B' (by decide)),
      if_neg (hne 'C' (by decide)), if_neg (hne 'D' (by decide)),
      if_neg (hne 'E' (by decide)), if_neg (hne 'F' (by decide)),
      if_neg (hne 'G' (by decide)), if_neg (hne 'H' (by decide)),
      if_neg (hne 'I' (by decide)), if_neg (hne 'J' (by decide)),
      if_neg (hne 'K' (by decide)), if_neg (hne 'L' (by decide)),
      if_neg (hne 'M' (by decide)), if_neg (hne 'N' (by decide)),
      if_neg (hne 'O' (by decide)), if_neg (hne 'P' (by decide)),
      if_neg (hne 'Q' (by decide)), if_neg (hne 'R' (by decide)),
      if_neg (hne 'S' (by decide)), if_neg (hne 'T' (by decide)),
      if_neg (hne 'U' (by decide)), if_neg (hne 'V' (by decide)),
      if_neg (hne 'W' (by decide)), if_neg (hne 'X' (by decide)),
      if_neg (hne 'Y' (by decide)), if_neg (hne 'Z' (by decide))]

theorem pyLowerChar_idem (c : Char) :
    pyLowerChar (pyLowerChar c) = pyLowerChar c := by
  rcases pyLowerChar_split c with h | h
  · fin_cases h <;> decide
  · rw [h, h]

theorem isWordChar_pyLowerChar (c : Char) :
    isWordChar (pyLowerChar c) = isWordChar c := by
  rcases pyLowerChar_split c with h | h
  · fin_cases h <;> decide
  · rw [h]

theorem pyLowerChar_star {c : Char} (h : pyLowerChar c = '*') : c = '*' := by
  rcases pyLowerChar_split c with h2 | h2
  · exfalso
    revert h
    fin_cases h2 <;> decide
  · exact h2 ▸ h

theorem pyLowerChar_newline {c : Char} (h : pyLowerChar c = '\n') : c = '\n' := by
  rcases pyLowerChar_split c with h2 | h2
  · exfalso
    revert h
    fin_cases h2 <;> decide
  · exact h2 ▸ h

theorem pyLower_idem (s : Str) : pyLower (pyLower s) = pyLower s := by
  rw [pyLower, pyLower, List.map_map]
  exact List.map_congr_left (fun c _ => pyLowerChar_idem c)

/-! ### Unfolding equations for the strip scanner -/

theorem stripGo_mono : ∀ (n m : Nat) (s : Str),
    s.length ≤ n → s.length ≤ m → stripGo n s = stripGo m s := by
  intro n
  induction n with
  | zero =>
    intro m s hn _
    have : s = [] := List.length_eq_zero.mp (Nat.le_zero.mp hn)
    subst this
    cases m <;> rfl
  | succ n ih =>
    intro m s hn hm
    match s, hn, hm with
    | [], _, _ => cases m <;> rfl
    | [c], _, hm =>
      match m, hm with
      | m + 1, _ => rfl
    | c :: d :: rest, hn, hm =>
      match m, hm with
      | m + 1, hm =>
        rw [stripGo, stripGo]
        have hrn : rest.length + 2 ≤ n + 1 := by
          simpa [List.length_cons] using hn
        have hrm : rest.length + 2 ≤ m + 1 := by
          simpa [List.length_cons] using hm
        split
        · cases hfc : findClose rest with
          | none =>
            show c :: stripGo n (d :: rest) = c :: stripGo m (d :: rest)
            rw [ih m (d :: rest) (by simp [List.length_cons]; omega)
              (by simp [List.length_cons]; omega)]
          | some p =>
            obtain ⟨g, r⟩ := p
            have hfl := findClose_length hfc
            show g ++ stripGo n r = g ++ stripGo m r
            rw [ih m r (by omega) (by omega)]
        · rw [ih m (d :: rest) (by simp [List.length_cons]; omega)
            (by simp [List.length_cons]; omega)]

theorem stripEmph_nil : stripEmph [] = [] := rfl

theorem stripEmph_one (c : Char) : stripEmph [c] = [c] := rfl

theorem stripEmph_cons_ne {c : Char} (h : c ≠ '*') (t : Str) :
    stripEmph (c :: t) = c :: stripEmph t := by
  cases t with
  | nil => rfl
  | cons d t2 =>
    show stripGo (t2.length + 1 + 1) (c :: d :: t2) = _
    rw [stripGo, if_neg (by simp [h])]
    rfl

theorem stripEmph_match {rest g r : Str} (h : findClose rest = some (g, r)) :
    stripEmph ('*' :: '*' :: rest) = g ++ stripEmph r := by
  show stripGo (rest.length + 1 + 1) ('*' :: '*' :: rest) = _
  rw [stripGo, if_pos (by simp), h]
  have hfl := findClose_length h
  show g ++ stripGo (rest.length + 1) r = g ++ stripEmph r
  rw [stripGo_mono (rest.length + 1) r.length r (by omega) (le_refl _)]
  rfl

theorem stripEmph_star_ne {c : Char} (h : c ≠ '*') (t : Str) :
    stripEmph ('*' :: c :: t) = '*' :: stripEmph (c :: t) := by
  show stripGo (t.length + 1 + 1) ('*' :: c :: t) = _
  rw [stripGo, if_neg (by simp [h])]
  rfl

/-! ### The shape grammar of emphasized strings

`GKns ks s` says the string `s` is an interleaving of ordinary characters
(never two adjacent `*`), single stray stars, and well-formed emphasis
blocks `**w**` whose word lower-cases into `ks`; `GK` additionally allows
one leading stray star.  Strings without `**` satisfy `GK []`, and each
`re.sub` keyword pass preserves the shape while extending `ks`. -/

mutual
inductive GKns (ks : List Str) : Str → Prop where
  | nil : GKns ks []
  | ch : ∀ {c : Char} {t : Str}, c ≠ '*' → GK ks t → GKns ks (c :: t)
  | blk : ∀ {w t : Str}, pyLower w ∈ ks → GK ks t →
      GKns ks ('*' :: '*' :: (w ++ '*' :: '*' :: t))
inductive GK (ks : List Str) : Str → Prop where
  | ns : ∀ {t : Str}, GKns ks t → GK ks t
  | st : ∀ {t : Str}, GKns ks t → GK ks ('*' :: t)
end

/-- The side conditions on the allowed block-word list: non-empty,
star-free and newline-free words. -/
def ksOK (ks : List Str) : Prop := ∀ k ∈ ks, k ≠ [] ∧ '*' ∉ k ∧ '\n' ∉ k

instance (ks : List Str) : Decidable (ksOK ks) := by
  unfold ksOK; infer_instance

theorem word_props {ks : List Str} {w : Str} (hks : ksOK ks)
    (hw : pyLower w ∈ ks) : w ≠ [] ∧ '*' ∉ w ∧ '\n' ∉ w := by
  obtain ⟨h1, h2, h3⟩ := hks _ hw
  refine ⟨?_, ?_, ?_⟩
  · intro he
    subst he
    exact h1 rfl
  · intro hm
    have h4 : pyLowerChar '*' ∈ pyLower w := List.mem_map_of_mem _ hm
    rw [show pyLowerChar '*' = '*' by decide] at h4
    exact h2 h4
  · intro hm
    have h4 : pyLowerChar '\n' ∈ pyLower w := List.mem_map_of_mem _ hm
    rw [show pyLowerChar '\n' = '\n' by decide] at h4
    exact h3 h4

theorem hasDD_tail_false {x : Char} {t : Str} (h : hasDD (x :: t) = false) :
    hasDD t = false := by
  cases t with
  | nil => rfl
  | cons d t2 =>
    rw [hasDD, Bool.or_eq_false_iff] at h
    exact h.2

/-- A string with no `**` substring is in the shape grammar with no
blocks at all. -/
theorem GK_of_noDD (ks : List Str) :
    ∀ (n : Nat) (s : Str), s.length ≤ n → hasDD s = false → GK ks s := by
  intro n
  induction n with
  | zero =>
    intro s hl _
    have : s = [] := List.length_eq_zero.mp (Nat.le_zero.mp hl)
    subst this
    exact .ns .nil
  | succ n ih =>
    intro s hl hdd
    match s with
    | [] => exact .ns .nil
    | [c] =>
      by_cases hc : c = '*'
      · subst hc
        exact .st .nil
      · exact .ns (.ch hc (.ns .nil))
    | c :: d :: t =>
      have hlt : (d :: t).length ≤ n := by
        simpa [List.length_cons] using Nat.succ_le_succ_iff.mp (by
          simpa [List.length_cons] using hl)
      by_cases hc : c = '*'
      · subst hc
        have hd : d ≠ '*' := by
          intro hd
          subst hd
          rw [hasDD] at hdd
          simp at hdd
        have ht : hasDD t = false := hasDD_tail_false (hasDD_tail_false hdd)
        have hgt : GK ks t := ih t (by simp [List.length_cons] at hl ⊢; omega) ht
        exact .st (.ch hd hgt)
      · exact .ns (.ch hc (ih (d :: t) hlt (hasDD_tail_false hdd)))

/-- The lazy close search runs through a star-free, newline-free group
and stops at the following `**`. -/
theorem findClose_starfree (w r : Str) (hsf : '*' ∉ w) (hnl : '\n' ∉ w) :
    findClose (w ++ '*' :: '*' :: r) = some (w, r) := by
  induction w with
  | nil =>
    rw [List.nil_append, findClose]
    simp
  | cons c w2 ih =>
    have hc : c ≠ '*' := fun h => hsf (h ▸ List.mem_cons_self ..)
    have hcn : c ≠ '\n' := fun h => hnl (h ▸ List.mem_cons_self ..)
    have hsf2 : '*' ∉ w2 := fun h => hsf (List.mem_cons_of_mem _ h)
    have hnl2 : '\n' ∉ w2 := fun h => hnl (List.mem_cons_of_mem _ h)
    rw [List.cons_append, findClose, if_neg (by simp [hc]), if_neg hcn,
      ih hsf2 hnl2]
    rfl

theorem findClose_star_starfree {w : Str} (r : Str) (hne : w ≠ [])
    (hsf : '*' ∉ w) (hnl : '\n' ∉ w) :
    findClose ('*' :: (w ++ '*' :: '*' :: r)) = some ('*' :: w, r) := by
  cases w with
  | nil => cases hne rfl
  | cons c w2 =>
    have hc : c ≠ '*' := fun h => hsf (h ▸ List.mem_cons_self ..)
    rw [findClose]
    rw [if_neg (by simp [hc]), if_neg (by decide)]
    rw [findClose_starfree _ _ hsf hnl]
    rfl

/-- Stripping a string in the shape grammar leaves no `**`. -/
theorem strip_GK {ks : List Str} (hks : ksOK ks) :
    ∀ (n : Nat) (s : Str), s.length ≤ n → GK ks s →
      hasDD (stripEmph s) = false := by
  intro n
  induction n with
  | zero =>
    intro s hl _
    have : s = [] := List.length_eq_zero.mp (Nat.le_zero.mp hl)
    subst this
    rfl
  | succ n ih =>
    intro s hl hg
    cases hg with
    | ns hns =>
      cases hns with
      | nil => rfl
      | ch hc hgt =>
        rename_i c t
        rw [stripEmph_cons_ne hc, hasDD_cons_ne hc]
        exact ih t (by simp [List.length_cons] at hl; omega) hgt
      | blk hw hgt =>
        rename_i w t
        obtain ⟨hwne, hwsf, hwnl⟩ := word_props hks hw
        rw [stripEmph_match (findClose_starfree _ _ hwsf hwnl)]
        rw [hasDD_append_starfree hwsf]
        refine ih t ?_ hgt
        simp [List.length_cons, List.length_append] at hl
        omega
    | st hns =>
      cases hns with
      | nil => rfl
      | ch hc hgt =>
        rename_i c t
        rw [stripEmph_star_ne hc, stripEmph_cons_ne hc]
        have h1 : hasDD ('*' :: c :: stripEmph t) = hasDD (c :: stripEmph t) := by
          rw [hasDD]
          simp [show (c == '*') = false by simpa using hc]
        rw [h1, hasDD_cons_ne hc]
        exact ih t (by simp [List.length_cons] at hl; omega) hgt
      | blk hw hgt =>
        rename_i w t
        obtain ⟨hwne, hwsf, hwnl⟩ := word_props hks hw
        rw [stripEmph_match (findClose_star_starfree t hwne hwsf hwnl)]
        rw [show ('*' :: w) ++ stripEmph t = '*' :: (w ++ stripEmph t) by rfl]
        rw [hasDD_star_cons hwne hwsf]
        refine ih t ?_ hgt
        simp [List.length_cons, List.length_append] at hl
        omega

/-! ### Unfolding equations for the emphasis scanner -/

theorem emphGo_mono {kw : Str} (hkw : kw ≠ []) : ∀ (n m : Nat) (b : Bool) (s : Str),
    s.length ≤ n → s.length ≤ m → emphGo kw n b s = emphGo kw m b s := by
  intro n
  induction n with
  | zero =>
    intro m b s hn _
    have : s = [] := List.length_eq_zero.mp (Nat.le_zero.mp hn)
    subst this
    cases m <;> rfl
  | succ n ih =>
    intro m b s hn hm
    match s, hn, hm with
    | [], _, _ => cases m <;> rfl
    | c :: rest, hn, hm =>
      match m, hm with
      | m + 1, hm =>
        have hkl : 0 < kw.length := List.length_pos.mpr hkw
        have hrest : rest.length + 1 ≤ n + 1 := by
          simpa [List.length_cons] using hn
        have hrest2 : rest.length + 1 ≤ m + 1 := by
          simpa [List.length_cons] using hm
        rw [emphGo, emphGo]
        split
        · have hd : ((c :: rest).drop kw.length).length ≤ rest.length := by
            simp [List.length_drop, List.length_cons]
            omega
          rw [ih m _ _ (by omega) (by omega)]
        · rw [ih m _ rest (by omega) (by omega)]

theorem emphOne_nil (kw : Str) (b : Bool) : emphOne kw b [] = [] := rfl

theorem emphOne_match {kw : Str} {b : Bool} {c : Char} {rest : Str}
    (hkw : kw ≠ []) (hm : matchesKwAt kw b (c :: rest) = true) :
    emphOne kw b (c :: rest) =
      str "**" ++ (c :: rest).take kw.length ++ str "**" ++
        emphOne kw (isWordChar (((c :: rest).take kw.length).getLastD ' '))
          ((c :: rest).drop kw.length) := by
  show emphGo kw (rest.length + 1) b (c :: rest) = _
  rw [emphGo, if_pos ⟨hkw, hm⟩]
  have hkl : 0 < kw.length := List.length_pos.mpr hkw
  rw [emphGo_mono hkw rest.length (((c :: rest).drop kw.length).length) _ _
    (by simp [List.length_drop, List.length_cons]; omega) (le_refl _)]
  rfl

theorem emphOne_nomatch {kw : Str} {b : Bool} {c : Char} {rest : Str}
    (h : ¬(kw ≠ [] ∧ matchesKwAt kw b (c :: rest) = true)) :
    emphOne kw b (c :: rest) = c :: emphOne kw (isWordChar c) rest := by
  show emphGo kw (rest.length + 1) b (c :: rest) = _
  rw [emphGo, if_neg h]
  rfl

/-! ### Boundary-match lemmas -/

/-- No keyword match can start at a star. -/
theorem matchesKwAt_star {kw : Str} (hkw : kw ≠ []) (hsf : '*' ∉ kw)
    (b : Bool) (x : Str) : matchesKwAt kw b ('*' :: x) = false := by
  cases kw with
  | nil => cases hkw rfl
  | cons k0 kr =>
    have hk0 : k0 ≠ '*' := fun h => hsf (h ▸ List.mem_cons_self ..)
    unfold matchesKwAt
    rw [List.length_cons, List.take_succ_cons]
    have hfirst : (pyLower ('*' :: x.take kr.length) == k0 :: kr) = false := by
      rw [beq_eq_false_iff_ne]
      intro heq
      rw [pyLower, List.map_cons, show pyLowerChar '*' = '*' by decide] at heq
      exact hk0 ((List.cons.injEq .. ▸ heq).1.symm)
    rw [hfirst]
    simp

/-- Keyword matching only inspects the lower-cased text, so it cannot
distinguish a string from its lower-cased form. -/
theorem matchesKwAt_lower (kw : Str) (b : Bool) (s : Str) :
    matchesKwAt kw b (pyLower s) = matchesKwAt kw b s := by
  unfold matchesKwAt
  have h1 : pyLower ((pyLower s).take kw.length) = pyLower (s.take kw.length) := by
    rw [pyLower, pyLower, ← List.map_take, List.map_map]
    exact List.map_congr_left (fun c _ => pyLowerChar_idem c)
  rw [show (pyLower s).take kw.length = pyLower (s.take kw.length) from
    (List.map_take ..).symm] at h1
  rw [show (pyLower s).take kw.length = pyLower (s.take kw.length) from
    (List.map_take ..).symm]
  rw [show pyLower (pyLower (s.take kw.length)) = pyLower (s.take kw.length) from
    pyLower_idem _]
  rw [show (pyLower s).drop kw.length = pyLower (s.drop kw.length) from
    (List.map_drop ..).symm]
  cases hd : s.drop kw.length with
  | nil => rfl
  | cons a t =>
    simp only [pyLower, List.map_cons, isWordChar_pyLowerChar]

/-- A star-free keyword match is insensitive to what lies beyond the next
star in the scanned string. -/
theorem matchesKwAt_ext {kw : Str} (hkw : kw ≠ []) (hsf : '*' ∉ kw)
    (b : Bool) (u x y : Str) :
    matchesKwAt kw b (u ++ '*' :: x) = matchesKwAt kw b (u ++ '*' :: y) := by
  by_cases hn : kw.length ≤ u.length
  · unfold matchesKwAt
    have ht : ∀ z : Str, (u ++ '*' :: z).take kw.length = u.take kw.length := by
      intro z
      rw [List.take_append_eq_append_take, Nat.sub_eq_zero_of_le hn,
        List.take_zero, List.append_nil]
    have hdr : ∀ z : Str, (u ++ '*' :: z).drop kw.length = u.drop kw.length ++ '*' :: z := by
      intro z
      rw [List.drop_append_eq_append_drop, Nat.sub_eq_zero_of_le hn, List.drop_zero]
    rw [ht x, ht y, hdr x, hdr y]
    cases hdu : u.drop kw.length with
    | nil => rfl
    | cons a t => rfl
  · have hfalse : ∀ z : Str,
        (pyLower ((u ++ '*' :: z).take kw.length) == kw) = false := by
      intro z
      rw [beq_eq_false_iff_ne]
      intro heq
      have hmem : '*' ∈ (u ++ '*' :: z).take kw.length := by
        rw [List.take_append_eq_append_take,
          List.take_of_length_le (le_of_not_le hn)]
        refine List.mem_append_right _ ?_
        have : 0 < kw.length - u.length := by omega
        match hkl : kw.length - u.length, this with
        | k + 1, _ =>
          rw [List.take_succ_cons]
          exact List.mem_cons_self ..
      have : pyLowerChar '*' ∈ kw := heq ▸ List.mem_map_of_mem _ hmem
      rw [show pyLowerChar '*' = '*' by decide] at this
      exact hsf this
    unfold matchesKwAt
    rw [hfalse x, hfalse y]
    simp

/-! ### Inversion and prefix-dropping for the shape grammar -/

theorem GK_cons_ne {ks : List Str} {c : Char} {t : Str}
    (h : GK ks (c :: t)) (hc : c ≠ '*') : GK ks t := by
  cases h with
  | ns hns =>
    cases hns with
    | ch _ hgt => exact hgt
    | blk hw hgt => exact absurd rfl hc
  | st hns => exact absurd rfl hc

theorem GK_drop_starfree {ks : List Str} :
    ∀ (m t : Str), '*' ∉ m → GK ks (m ++ t) → GK ks t := by
  intro m
  induction m with
  | nil => intro t _ h; exact h
  | cons c m2 ih =>
    intro t hsf h
    have hc : c ≠ '*' := fun hc => hsf (hc ▸ List.mem_cons_self ..)
    have hm2 : '*' ∉ m2 := fun hm => hsf (List.mem_cons_of_mem _ hm)
    exact ih t hm2 (GK_cons_ne h hc)

theorem not_match_star {kw : Str} (hkw : kw ≠ []) (hsf : '*' ∉ kw)
    (b : Bool) (x : Str) :
    ¬(kw ≠ [] ∧ matchesKwAt kw b ('*' :: x) = true) := by
  intro hh
  rw [matchesKwAt_star hkw hsf] at hh
  exact Bool.noConfusion hh.2

/-- Scanning a star-free word: at no position of `u` (with the running
previous-character word bit) does the keyword match, where the text after
`u` is abstracted by the single closing star that follows it. -/
def noMatchScan (kw : Str) : Bool → Str → Bool
  | _, [] => true
  | b, c :: u =>
    !matchesKwAt kw b (pyLower (c :: u) ++ ['*']) &&
      noMatchScan kw (isWordChar c) u

theorem noMatchScan_lower (kw : Str) : ∀ (b : Bool) (u : Str),
    noMatchScan kw b (pyLower u) = noMatchScan kw b u := by
  intro b u
  induction u generalizing b with
  | nil => rfl
  | cons c u2 ih =>
    have h1 : pyLower (pyLowerChar c :: pyLower u2) = pyLower (c :: u2) := by
      show pyLowerChar (pyLowerChar c) :: pyLower (pyLower u2) =
        pyLowerChar c :: pyLower u2
      rw [pyLowerChar_idem, pyLower_idem]
    show (!matchesKwAt kw b (pyLower (pyLowerChar c :: pyLower u2) ++ ['*']) &&
        noMatchScan kw (isWordChar (pyLowerChar c)) (pyLower u2)) =
      (!matchesKwAt kw b (pyLower (c :: u2) ++ ['*']) &&
        noMatchScan kw (isWordChar c) u2)
    rw [h1, isWordChar_pyLowerChar, ih]

/-- The keyword pass copies a star-free word verbatim (and the two closing
stars after it) when no position of the word matches the keyword. -/
theorem scan_aux {kw : Str} (hkw : kw ≠ []) (hsf : '*' ∉ kw) :
    ∀ (u : Str) (b : Bool) (t : Str), '*' ∉ u → noMatchScan kw b u = true →
      emphOne kw b (u ++ '*' :: '*' :: t) =
        u ++ '*' :: '*' :: emphOne kw false t := by
  intro u
  induction u with
  | nil =>
    intro b t _ _
    simp only [List.nil_append]
    rw [emphOne_nomatch (not_match_star hkw hsf b ('*' :: t)),
      emphOne_nomatch (not_match_star hkw hsf (isWordChar '*') t),
      show isWordChar '*' = false from by decide]
  | cons c u2 ih =>
    intro b t hsfu hnms
    have hc2 : '*' ∉ u2 := fun hm => hsfu (List.mem_cons_of_mem _ hm)
    rw [show noMatchScan kw b (c :: u2) =
        (!matchesKwAt kw b (pyLower (c :: u2) ++ ['*']) &&
          noMatchScan kw (isWordChar c) u2) from rfl,
      Bool.and_eq_true, Bool.not_eq_true'] at hnms
    obtain ⟨hm1, hm2⟩ := hnms
    have hmatch : matchesKwAt kw b ((c :: u2) ++ '*' :: '*' :: t) = false := by
      rw [show (c :: u2) ++ '*' :: '*' :: t = (c :: u2) ++ '*' :: ('*' :: t)
        from rfl]
      rw [matchesKwAt_ext hkw hsf b (c :: u2) ('*' :: t) []]
      rw [← matchesKwAt_lower]
      rw [show pyLower ((c :: u2) ++ '*' :: []) = pyLower (c :: u2) ++ ['*'] from by
        simp [pyLower, List.map_append, show pyLowerChar '*' = '*' from by decide]]
      exact hm1
    have hnm : ¬(kw ≠ [] ∧
        matchesKwAt kw b (c :: (u2 ++ '*' :: '*' :: t)) = true) := by
      intro hh
      rw [show c :: (u2 ++ '*' :: '*' :: t) = (c :: u2) ++ '*' :: '*' :: t
        from rfl, hmatch] at hh
      exact Bool.noConfusion hh.2
    rw [show (c :: u2) ++ '*' :: '*' :: t = c :: (u2 ++ '*' :: '*' :: t) from rfl]
    rw [emphOne_nomatch hnm, ih (isWordChar c) t hc2 hm2]
    rfl

/-- One keyword pass maps a string in the shape grammar over `ks` (with no
leading stray star) to one over `kw :: ks`, provided the keyword is
non-empty and star-free and never matches inside an allowed block word. -/
theorem emphOne_GKns {kw : Str} (hkw : kw ≠ []) (hsf : '*' ∉ kw)
    {ks : List Str} (hks : ksOK ks)
    (hfr : ∀ k ∈ ks, noMatchScan kw false k = true) :
    ∀ (n : Nat) (s : Str), s.length ≤ n → ∀ (b : Bool),
      GKns ks s → GKns (kw :: ks) (emphOne kw b s) := by
  intro n
  induction n with
  | zero =>
    intro s hl b hns
    have : s = [] := List.length_eq_zero.mp (Nat.le_zero.mp hl)
    subst this
    rw [emphOne_nil]
    exact .nil
  | succ n ih =>
    intro s hl b hns
    have hGK : ∀ (t : Str), t.length ≤ n → ∀ (b2 : Bool), GK ks t →
        GK (kw :: ks) (emphOne kw b2 t) := by
      intro t hlt b2 hg
      cases hg with
      | ns h => exact .ns (ih t hlt b2 h)
      | st h =>
        rename_i u
        rw [emphOne_nomatch (not_match_star hkw hsf b2 u)]
        exact .st (ih u (by simp [List.length_cons] at hlt; omega) _ h)
    cases hns with
    | nil =>
      rw [emphOne_nil]
      exact .nil
    | ch hc hgt =>
      rename_i c t
      by_cases hm : matchesKwAt kw b (c :: t) = true
      · rw [emphOne_match hkw hm]
        have hfirst : pyLower ((c :: t).take kw.length) = kw := by
          rw [matchesKwAt, Bool.and_eq_true, Bool.and_eq_true] at hm
          exact eq_of_beq hm.1.1
        have hmsf : '*' ∉ (c :: t).take kw.length := by
          intro hmem
          have h2 : pyLowerChar '*' ∈ pyLower ((c :: t).take kw.length) :=
            List.mem_map_of_mem _ hmem
          rw [show pyLowerChar '*' = '*' from by decide, hfirst] at h2
          exact hsf h2
        have hdropGK : GK ks ((c :: t).drop kw.length) := by
          have h3 : GK ks ((c :: t).take kw.length ++ (c :: t).drop kw.length) := by
            rw [List.take_append_drop]
            exact .ns (.ch hc hgt)
          exact GK_drop_starfree _ _ hmsf h3
        have hkl : 0 < kw.length := List.length_pos.mpr hkw
        have hdlen : ((c :: t).drop kw.length).length ≤ n := by
          simp [List.length_drop, List.length_cons] at hl ⊢
          omega
        have hE : GK (kw :: ks)
            (emphOne kw (isWordChar (((c :: t).take kw.length).getLastD ' '))
              ((c :: t).drop kw.length)) := hGK _ hdlen _ hdropGK
        have hmem : pyLower ((c :: t).take kw.length) ∈ kw :: ks := by
          rw [hfirst]
          exact List.mem_cons_self ..
        have hblk := GKns.blk hmem hE
        have hshape : '*' :: '*' :: ((c :: t).take kw.length ++ '*' :: '*' ::
            emphOne kw (isWordChar (((c :: t).take kw.length).getLastD ' '))
              ((c :: t).drop kw.length)) =
            str "**" ++ (c :: t).take kw.length ++ str "**" ++
              emphOne kw (isWordChar (((c :: t).take kw.length).getLastD ' '))
                ((c :: t).drop kw.length) := by
          rw [show str "**" = ['*', '*'] from rfl]
          simp [List.append_assoc]
        exact hshape ▸ hblk
      · rw [emphOne_nomatch (fun hh => hm hh.2)]
        exact .ch hc (hGK t (by simp [List.length_cons] at hl; omega) _ hgt)
    | blk hw hgt =>
      rename_i w t
      obtain ⟨hwne, hwsf, _⟩ := word_props hks hw
      rw [emphOne_nomatch (not_match_star hkw hsf b ('*' :: (w ++ '*' :: '*' :: t))),
        emphOne_nomatch (not_match_star hkw hsf (isWordChar '*') (w ++ '*' :: '*' :: t)),
        show isWordChar '*' = false from by decide]
      have hnms : noMatchScan kw false w = true := by
        rw [← noMatchScan_lower]
        exact hfr _ hw
      rw [scan_aux hkw hsf w false t hwsf hnms]
      have hwl : 0 < w.length := List.length_pos.mpr hwne
      have htlen : t.length ≤ n := by
        simp [List.length_cons, List.length_append] at hl
        omega
      exact .blk (List.mem_cons_of_mem _ hw) (hGK t htlen false hgt)

/-- One keyword pass maps the shape grammar over `ks` to the shape grammar
over `kw :: ks`. -/
theorem emphOne_GK {kw : Str} (hkw : kw ≠ []) (hsf : '*' ∉ kw)
    {ks : List Str} (hks : ksOK ks)
    (hfr : ∀ k ∈ ks, noMatchScan kw false k = true) :
    ∀ (s : Str) (b : Bool), GK ks s → GK (kw :: ks) (emphOne kw b s) := by
  intro s b hg
  cases hg with
  | ns h => exact .ns (emphOne_GKns hkw hsf hks hfr s.length s (le_refl _) b h)
  | st h =>
    rename_i u
    rw [emphOne_nomatch (not_match_star hkw hsf b u)]
    exact .st (emphOne_GKns hkw hsf hks hfr u.length u (le_refl _) _ h)

/-- The side conditions letting every pass of a keyword-list fold preserve
the shape grammar: each keyword is non-empty, star-free, newline-free, and
never matches inside a keyword emphasized by an earlier pass. -/
def foldOK : List Str → List Str → Prop
  | [], _ => True
  | kw :: rest, ks =>
      kw ≠ [] ∧ '*' ∉ kw ∧ '\n' ∉ kw ∧
      (∀ k ∈ ks, noMatchScan kw false k = true) ∧ foldOK rest (kw :: ks)

def foldOK.dec : (kws ks : List Str) → Decidable (foldOK kws ks)
  | [], _ => .isTrue trivial
  | kw :: rest, ks => by
    haveI := foldOK.dec rest (kw :: ks)
    show Decidable (kw ≠ [] ∧ '*' ∉ kw ∧ '\n' ∉ kw ∧
      (∀ k ∈ ks, noMatchScan kw false k = true) ∧ foldOK rest (kw :: ks))
    infer_instance

instance (kws ks : List Str) : Decidable (foldOK kws ks) := foldOK.dec kws ks

/-- The `_emphasize_keywords` fold keeps its text inside the shape grammar
for some block-word list satisfying `ksOK`. -/
theorem emphFold_GK : ∀ (kws ks : List Str) (s : Str), ksOK ks →
    foldOK kws ks → GK ks s →
    ∃ ks2, ksOK ks2 ∧ GK ks2 (kws.foldl (fun t kw => emphOne kw false t) s) := by
  intro kws
  induction kws with
  | nil =>
    intro ks s hks _ hg
    exact ⟨ks, hks, hg⟩
  | cons kw rest ih =>
    intro ks s hks hfo hg
    have hfo2 : kw ≠ [] ∧ '*' ∉ kw ∧ '\n' ∉ kw ∧
        (∀ k ∈ ks, noMatchScan kw false k = true) ∧ foldOK rest (kw :: ks) := hfo
    obtain ⟨h1, h2, h3, h4, h5⟩ := hfo2
    rw [List.foldl_cons]
    have hstep : GK (kw :: ks) (emphOne kw false s) :=
      emphOne_GK h1 h2 hks h4 s false hg
    have hks2 : ksOK (kw :: ks) := by
      intro k hk
      rcases List.mem_cons.mp hk with h | h
      · subst h
        exact ⟨h1, h2, h3⟩
      · exact hks _ h
    exact ih (kw :: ks) _ hks2 h5 hstep

/-- `_post_process_summary` only prepends star-free labels to the marker-
stripped summary, so it preserves absence of `**`. -/
theorem postProcess_noDD (summary focus : Str)
    (h : hasDD (stripEmph summary) = false) :
    hasDD (postProcessSummary summary focus) = false := by
  simp only [postProcessSummary]
  split
  · split
    · rw [hasDD_append_starfree (by decide)]
      exact h
    · exact h
  · split
    · split
      · rw [hasDD_append_starfree (by decide)]
        exact h
      · exact h
    · split
      · split
        · rw [hasDD_append_starfree (by decide)]
          exact h
        · exact h
      · exact h

set_option maxHeartbeats 2000000

/-- C9: for every text produced by `_apply_focus_specific_processing`
(which applies `_emphasize_keywords`) to an input that does not already
contain the emphasis delimiter `**`, the output of `_post_process_summary`
on that text never contains `**`: the markers inserted by emphasis are
completely stripped before user-visible output. -/
theorem C9_emphasize_strip_complete (s focus : Str)
    (h : pyIn (str "**") s = false) :
    pyIn (str "**")
      (postProcessSummary (applyFocusSpecificProcessing s focus) focus) = false := by
  rw [pyIn_dd_eq_hasDD] at h ⊢
  have hg : GK [] s := GK_of_noDD [] s.length s (le_refl _) h
  have hksnil : ksOK ([] : List Str) := fun k hk => absurd hk (List.not_mem_nil k)
  have hmain : ∃ ks2, ksOK ks2 ∧ GK ks2 (applyFocusSpecificProcessing s focus) := by
    unfold applyFocusSpecificProcessing emphasizeKeywords
    split
    · exact emphFold_GK obligationKeywords [] s hksnil (by decide) hg
    · split
      · exact emphFold_GK partyKeywords [] s hksnil (by decide) hg
      · split
        · exact emphFold_GK dateKeywords [] s hksnil (by decide) hg
        · exact ⟨[], hksnil, hg⟩
  obtain ⟨ks2, hks2, hg2⟩ := hmain
  exact postProcess_noDD _ _ (strip_GK hks2 _ _ (le_refl _) hg2)

theorem C9_emphasize_strip_complete_witness :
    pyIn (str "**") (str "The party shall pay the client fee. ") = false ∧
    pyIn (str "**")
      (postProcessSummary
        (applyFocusSpecificProcessing (str "The party shall pay the client fee. ")
          (str "obligations"))
        (str "obligations")) = false :=
  ⟨by decide, C9_emphasize_strip_complete _ _ (by decide)⟩

end LawTool
